import Mathlib

/-
Verification development for the PDK_Generator repository.

Each definition below is a shallow embedding of a function of the Python
source; interactions with the filesystem, the operator console and the two
external EDA applications (KLayout, Lumerical) are made explicit inputs or
outputs of the embedded functions. Numbers manipulated by the numerical
code are modelled over the rationals.
-/

set_option autoImplicit false

namespace PDK

/-! ## cml_compiler/cml_compiler_helper.py -/

/-- Commands accepted by `CMLCompilerHelper.cml_compiler`
(src/PDK_Generator/cml_compiler/cml_compiler_helper.py, line 215). -/
def supportedCompilerCmds : List String :=
  ["template", "library", "install", "test", "all", "runtests", "support"]

/-- Observable outcome of one `CMLCompilerHelper.cml_compiler` call: whether the
external `cml-compiler` subprocess was started, and the diagnostic line printed
when the command is rejected. -/
structure CmlCompilerCall where
  subprocessInvoked : Bool
  unsupportedMsg : Option String
deriving DecidableEq

/-- Embedding of `CMLCompilerHelper.cml_compiler` (cml_compiler_helper.py,
lines 188-233): a supported command leads to a `subprocess.run` invocation of
`cml-compiler`; any other command prints a message and returns. -/
def cml_compiler (cmd : String) : CmlCompilerCall :=
  if supportedCompilerCmds.contains cmd then
    { subprocessInvoked := true, unsupportedMsg := none }
  else
    { subprocessInvoked := false, unsupportedMsg := some "Unsupported command... Exiting..." }

/-- Outcome of `CMLCompilerHelper.generate_cml`. -/
inductive GenerateCmlOutcome where
  | compiled
  | fallbackPackaged
  | raisedError (msg : String)
  | raisedNotADirectory
deriving DecidableEq

/-- Embedding of `CMLCompilerHelper.generate_cml` (cml_compiler_helper.py,
lines 55-147). `dirExists` models the `os.path.exists` test on the CML
compilation directory; `compileAndRenameOk` models whether the
`cml_compiler("all", ...)` invocation together with the subsequent `os.rename`
completed without raising; `numElements` is the length of the `element_list`
entry of the CML's XML descriptor, read in the `except` branch. -/
def generate_cml (dirExists : Bool) (compileAndRenameOk : Bool) (numElements : Nat) :
    GenerateCmlOutcome :=
  if ¬ dirExists then .raisedNotADirectory
  else if compileAndRenameOk then .compiled
  else if numElements = 0 then .fallbackPackaged
  else .raisedError "CML Compiler returned with an error... See above traceback..."

/-! ## lumgen/drc_checks.py -/

/-- ASCII lowercasing of one character, the fragment of Python's `str.lower`
exercised by the operator prompts. -/
def lowerChar (c : Char) : Char :=
  if 65 ≤ c.toNat ∧ c.toNat ≤ 90 then Char.ofNat (c.toNat + 32) else c

/-- ASCII lowercasing of a string, modelling Python's `str.lower`. -/
def strLower (s : String) : String := ⟨s.data.map lowerChar⟩

/-- Embedding of `DRCCheck.prompt_continue` (drc_checks.py, lines 87-108):
the operator's raw answer is lowercased and compared against "yes" and "y". -/
def prompt_continue (answer : String) : Bool :=
  strLower answer = "yes" || strLower answer = "y"

/-- Embedding of `DRCCheck.prompt_drc_check` (drc_checks.py, lines 64-85). -/
def prompt_drc_check (answer : String) : Bool :=
  strLower answer = "yes" || strLower answer = "y"

/-- Environment of one `DRCCheck.run_drc` call: the filesystem and operator
answers it consults. `foundDeckPath` is the path found by walking the KLayout
folder for a file ending in `.lydrc` whose name contains `<techname>_DRC`
(`none` when the walk finds nothing). -/
structure DRCRunEnv where
  gdsFileExists : Bool
  foundDeckPath : Option String
  viewAnswer : String
  continueAnswer : String

/-- Observable outcome of `DRCCheck.run_drc`: the returned boolean and whether
the KLayout batch DRC subprocess was started. -/
structure DRCRunResult where
  returned : Bool
  ranDrcSubprocess : Bool
deriving DecidableEq

/-- Embedding of `DRCCheck.run_drc` (drc_checks.py, lines 131-216).
`cachedDeckPath` is the value of `self.drc_file_path` on entry (the empty
string when no previous run cached a deck path). -/
def run_drc (cachedDeckPath : String) (env : DRCRunEnv) : DRCRunResult :=
  if ¬ env.gdsFileExists then ⟨false, false⟩
  else
    let deckPath := if cachedDeckPath = "" then env.foundDeckPath.getD "" else cachedDeckPath
    if deckPath ≠ "" then ⟨prompt_continue env.continueAnswer, true⟩
    else ⟨false, false⟩

/-! ## inverse_design_y_branch/lumopt/optimization.py -/

/-- State of the external solver session consulted by
`Optimization.check_simulation_was_successful`: the object counts returned by
`getnamednumber` for the two solver types and the status result each solver
would report. -/
structure SimModel where
  numFDTD : Nat
  numVarFDTD : Nat
  fdtdStatus : Int
  varFdtdStatus : Int

/-- Status retrieval part of `Optimization.check_simulation_was_successful`
(optimization.py, lines 745-752). -/
def getSimulationStatus (sim : SimModel) : Except String Int :=
  if sim.numFDTD = 1 then .ok sim.fdtdStatus
  else if sim.numVarFDTD = 1 then .ok sim.varFdtdStatus
  else .error "no FDTD or varFDTD solver object could be found."

/-- Embedding of `Optimization.check_simulation_was_successful`
(optimization.py, lines 745-755): status 1 (ran to full simulation time) and
status 2 (autoshutoff triggered) are accepted, anything else raises. -/
def check_simulation_was_successful (sim : SimModel) : Except String Int :=
  match getSimulationStatus sim with
  | .error e => .error e
  | .ok st =>
      if st ≠ 1 ∧ st ≠ 2 then
        .error "FDTD simulation did not complete successfully"
      else .ok st

/-- Embedding of `Optimization.process_forward_sim` (optimization.py, lines
521-545): the saved forward simulation is loaded, the status check runs, and on
success the figure of merit read from the solver (`fom`, an external input of
the embedding) is returned. -/
def process_forward_sim (sim : SimModel) (fom : ℚ) : Except String ℚ :=
  match check_simulation_was_successful sim with
  | .error e => .error e
  | .ok _ => .ok fom

/-- Trace of one `Optimization.callable_fom` call: its result and how many
times the solver was asked to run the queued jobs. -/
structure ForwardSolveTrace where
  result : Except String ℚ
  runjobsCalls : Nat

/-- Embedding of `Optimization.callable_fom` (optimization.py, lines 547-565)
for an optimizer without concurrent adjoint solves: jobs are cleared, the
forward simulation is queued, `runjobs` is issued exactly once, and the result
of `process_forward_sim` is returned; there is no retry on failure. -/
def callable_fom (sim : SimModel) (fom : ℚ) : ForwardSolveTrace :=
  { result := process_forward_sim sim fom, runjobsCalls := 1 }

/-! ## Shared model of XML trees

Both `lumgen/drc_checks.py` and `common/common_methods.py` manipulate XML
documents through `xml.etree.ElementTree` and `xml.dom.minidom`. An XML tree
is modelled as an element with a tag and an ordered list of children, each
child being either character data or a nested element. Attributes, comments
and processing instructions are not used by the modelled code paths. -/

/-- Node of an XML tree: character data or an element. -/
inductive XmlNode where
  | text (data : List Char)
  | elem (tag : List Char) (children : List XmlNode)

/-- Document-order list of all elements of a forest, each subtree root
included, as produced by ElementTree's `Element.iter` on each root.
Character data is not iterated. -/
def iterForest : List XmlNode → List XmlNode
  | [] => []
  | .text _ :: ts => iterForest ts
  | .elem tag children :: ts =>
      .elem tag children :: (iterForest children ++ iterForest ts)

/-- Tag test performed by `root.iter('item')`. -/
def isItemElem : XmlNode → Bool
  | .elem tag _ => tag = "item".data
  | .text _ => false

/-- Embedding of `DRCCheck.get_total_drc_errors` (drc_checks.py, lines
110-129): the parsed results database is traversed with `root.iter('item')`
and the number of matches is returned. -/
def get_total_drc_errors (root : XmlNode) : Nat :=
  (List.filter isItemElem (iterForest [root])).length

/-- Specification-side count for claim C7: the number of elements with tag
`item` contained in a forest, at any depth. -/
def countItemForest : List XmlNode → Nat
  | [] => 0
  | .text _ :: ts => countItemForest ts
  | .elem tag children :: ts =>
      (if tag = "item".data then 1 else 0) + countItemForest children + countItemForest ts

/-- Specification-side count for claim C7, for a single tree. -/
def countItemElems (root : XmlNode) : Nat := countItemForest [root]

/-! ## Decimal rendering and parsing

`techgen/drc.py` parses layer numbers out of source strings with `int(...)`,
and `design_automation/Waveguide/Waveguide_geometry.py` renders radii into GDS
file names with `"...{}...".format(int(r*1000))`. Python's decimal rendering
of machine integers and its `int` parser on plain digit strings are modelled
here over `List Char`. -/

/-- Character of a decimal digit (0-9). -/
def digitChar (d : Nat) : Char := Char.ofNat (48 + d)

/-- Fuelled decimal rendering of a natural number. -/
def natToDigitsAux : Nat → Nat → List Char
  | 0, _ => []
  | fuel + 1, n =>
      if n < 10 then [digitChar n]
      else natToDigitsAux fuel (n / 10) ++ [digitChar (n % 10)]

/-- Decimal representation of a natural number, most significant digit first;
model of Python's `str` on a non-negative int. -/
def natToDigits (n : Nat) : List Char := natToDigitsAux (n + 1) n

/-- Decimal representation of an integer; model of Python's `str` on an int. -/
def intToDigits (i : Int) : List Char :=
  if i < 0 then '-' :: natToDigits i.natAbs else natToDigits i.toNat

/-- Truncation of a rational towards zero; model of Python's `int` on a
float holding that value exactly. -/
def pyTrunc (q : ℚ) : Int := q.num.tdiv q.den

/-- Value of a decimal digit character. -/
def digitVal (c : Char) : Nat := c.toNat - 48

/-- Model of Python's `int(s)` on a string of plain decimal digits; any other
string raises `ValueError`, modelled as `none`. (Python also accepts
surrounding whitespace, an optional sign and underscores, which the modelled
code never feeds to it.) -/
def parseIntDigits (s : List Char) : Option Nat :=
  if s ≠ [] ∧ s.all (fun c => 48 ≤ c.toNat && c.toNat ≤ 57) then
    some (s.foldl (fun acc c => 10 * acc + digitVal c) 0)
  else none

/-- Model of Python's `str.split(sep)` for a one-character separator: the list
of maximal (possibly empty) runs between occurrences of `sep`. -/
def splitOnChar (sep : Char) : List Char → List (List Char)
  | [] => [[]]
  | c :: rest =>
      match splitOnChar sep rest with
      | [] => [[]]
      | cur :: parts => if c = sep then [] :: cur :: parts else (c :: cur) :: parts

/-! ## techgen/drc.py and techgen/laystack.py -/

/-- Embedding of the layer-source parsing in `FoundryDRC.get_DRC_params`
(techgen/drc.py, lines 144-147): `layer['source'].split('@')` is taken, the
part before '@' is split at '/', and its first two fields are parsed as
integers, giving the `(layer_number, datatype)` pair. -/
def parseLayerSource (source : List Char) : Option (Nat × Nat) :=
  match splitOnChar '@' source with
  | [] => none
  | layerNumberDatatype :: _ =>
      match splitOnChar '/' layerNumberDatatype with
      | a :: b :: _ => do
          let n ← parseIntDigits a
          let d ← parseIntDigits b
          pure (n, d)
      | _ => none

/-- Source string of the form `"N/D@M"` appearing in a Process YAML layer. -/
def renderSource (n d m : Nat) : List Char :=
  natToDigits n ++ '/' :: natToDigits d ++ '@' :: natToDigits m

/-- Fields of one entry of the `layers` list of a Process YAML consulted by
`LayerStack.get_layer_formatting_params` (techgen/laystack.py, lines 185-224).
`hasLayerProps` models the truthiness of `layer.get('layer-properties')`,
`includeLayer` the value of `layer.get('include-layer', True)`. -/
structure LayerEntry where
  name : Option String
  groupName : Option String
  source : List Char
  hasLayerProps : Bool
  includeLayer : Bool

/-- Python dict insertion: assigning `d[k] = v` updates the entry with key `k`
in place when it exists and appends a new entry otherwise, preserving
insertion order. -/
def dictInsert {α β : Type} [DecidableEq α] (d : List (α × β)) (k : α) (v : β) :
    List (α × β) :=
  match d with
  | [] => [(k, v)]
  | (k', v') :: rest => if k' = k then (k, v) :: rest else (k', v') :: dictInsert rest k v

/-- Embedding of the `layer_sources` accumulation of
`LayerStack.get_layer_formatting_params` (techgen/laystack.py, lines 185-224):
for every layer carrying `layer-properties`, not excluded by `include-layer`,
and carrying a `name`, the assignment `layer_sources[name] = layer.get('source')`
stores the source string unmodified. -/
def get_layer_formatting_sources (layers : List LayerEntry) : List (String × List Char) :=
  layers.foldl
    (fun acc layer =>
      if layer.hasLayerProps ∧ layer.includeLayer then
        match layer.name with
        | some nm => dictInsert acc nm layer.source
        | none => acc
      else acc)
    []

/-- Names under which `get_layer_formatting_sources` stores an entry, in
visit order. -/
def storedLayerNames (layers : List LayerEntry) : List String :=
  layers.filterMap
    (fun layer => if layer.hasLayerProps ∧ layer.includeLayer then layer.name else none)

/-! ## design_automation/Waveguide/Waveguide_geometry.py -/

/-- GDS file path generated for one radius by
`WaveguideStripGeometry.sweep_radius` (Waveguide_geometry.py, line 193):
`os.path.join(self.gds_dir, "Waveguide_r={}nm.gds".format(int(r*1000)))`. -/
def waveguideGdsPath (gdsDir : List Char) (r : ℚ) : List Char :=
  gdsDir ++ ('/' :: "Waveguide_r=".data ++ intToDigits (pyTrunc (r * 1000)) ++ "nm.gds".data)

/-- Entries produced by the `sweep_radius` while loop in visit order, with the
radii they are keyed by. Structured as plain appends; claim C8 relates this to
the dict built by the loop. `fuel` bounds the number of iterations. -/
def sweepRadiusEntries (gdsDir : List Char) (maxRadius res : ℚ) :
    Nat → ℚ → List (List Char × ℚ)
  | 0, _ => []
  | fuel + 1, r =>
      if r ≤ maxRadius then
        (waveguideGdsPath gdsDir r, r) :: sweepRadiusEntries gdsDir maxRadius res fuel (r + res)
      else []

/-- Fuelled embedding of the while loop of `WaveguideStripGeometry.sweep_radius`
(Waveguide_geometry.py, lines 190-203): starting from the lower end of the
radius range, each iteration assigns `radius_sweep_mapping[gds_path] = r` and
advances `r` by the resolution, while `r` does not exceed the upper end. -/
def sweepRadiusAux (gdsDir : List Char) (maxRadius res : ℚ) :
    Nat → ℚ → List (List Char × ℚ) → List (List Char × ℚ)
  | 0, _, acc => acc
  | fuel + 1, r, acc =>
      if r ≤ maxRadius then
        sweepRadiusAux gdsDir maxRadius res fuel (r + res)
          (dictInsert acc (waveguideGdsPath gdsDir r) r)
      else acc

/-- Fuel sufficient for every iteration of the `sweep_radius` loop: for a
positive resolution the Python loop runs `⌊(max-min)/res⌋ + 1` times, which is
at most `((max-min)/res).num + 2`; for a non-positive resolution the Python
loop would not terminate, which the fuelled embedding does not model. -/
def sweepRadiusFuel (radiusRange : ℚ × ℚ) (res : ℚ) : Nat :=
  ((radiusRange.2 - radiusRange.1) / res).num.toNat + 2

/-- Embedding of `WaveguideStripGeometry.sweep_radius` (Waveguide_geometry.py,
lines 157-203), restricted to its `radius_sweep_mapping` result; the GDS
generation for each radius is delegated to the external KLayout subprocess. -/
def sweep_radius (gdsDir : List Char) (radiusRange : ℚ × ℚ) (res : ℚ) :
    List (List Char × ℚ) :=
  sweepRadiusAux gdsDir radiusRange.2 res (sweepRadiusFuel radiusRange res) radiusRange.1 []

/-! ## inverse_design_y_branch/lumopt/optimizers/fixed_step_gradient_descent.py

The optimizer state is a vector of numpy floating-point scalars, modelled as
`Option ℚ` where `none` stands for IEEE NaN and `some q` for the finite value
`q`. The gradient and noise values supplied by the external solver and the
random generator are finite vectors of rationals, indexed by iteration number.
The only division performed by the code is `gradients / np.max(np.abs(gradients))`,
whose denominator vanishes exactly when every numerator does, giving
`0.0 / 0.0 = NaN` (numpy emits a warning, not an exception); a nonzero
numerator over the zero denominator cannot arise there, so the infinities are
not modelled. `np.add`, `np.multiply`, `np.minimum` and `np.maximum` all
propagate NaN. -/

/-- Numpy elementwise addition on possibly-NaN scalars. -/
def npAdd : Option ℚ → Option ℚ → Option ℚ
  | some a, some b => some (a + b)
  | _, _ => none

/-- Numpy elementwise multiplication on possibly-NaN scalars. -/
def npMul : Option ℚ → Option ℚ → Option ℚ
  | some a, some b => some (a * b)
  | _, _ => none

/-- Numpy elementwise division on possibly-NaN scalars, restricted to the use
in `calculate_change` where a zero divisor forces a zero dividend: `0.0 / 0.0`
is NaN. -/
def npDiv : Option ℚ → Option ℚ → Option ℚ
  | some a, some b => if b = 0 then none else some (a / b)
  | _, _ => none

/-- Numpy `minimum`, which propagates NaN from either argument. -/
def npMin : Option ℚ → Option ℚ → Option ℚ
  | some a, some b => some (min a b)
  | _, _ => none

/-- Numpy `maximum`, which propagates NaN from either argument. -/
def npMax : Option ℚ → Option ℚ → Option ℚ
  | some a, some b => some (max a b)
  | _, _ => none

/-- Scaling applied to the caller-supplied bounds by `Optimizer.initialize`
(optimizer.py, line 80): `self.bounds *= self.scaling_factor.reshape(...)`. -/
def scaleBounds (scaling : List ℚ) (bounds : List (ℚ × ℚ)) : List (ℚ × ℚ) :=
  List.zipWith (fun s b => (s * b.1, s * b.2)) scaling bounds

/-- Largest absolute value of a finite vector, `np.max(np.abs(gradients))` for
a nonempty gradient vector. -/
def listMaxAbs (l : List ℚ) : ℚ := (l.map abs).foldl max 0

/-- Embedding of `FixedStepGradientDescent.calculate_change`
(fixed_step_gradient_descent.py, lines 54-59). In the normalizing branch an
all-zero gradient vector makes every component `0.0 / 0.0 = NaN`. -/
def calculate_change (allParamsEqual : Bool) (gradients maxDx : List ℚ) :
    List (Option ℚ) :=
  if allParamsEqual then
    List.zipWith (fun g dx => some ((if 0 < g then 1 else -1) * dx)) gradients maxDx
  else
    List.zipWith (fun g dx => npMul (npDiv (some g) (some (listMaxAbs gradients))) (some dx))
      gradients maxDx

/-- Embedding of `FixedStepGradientDescent.enforce_bounds`
(fixed_step_gradient_descent.py, lines 65-68): componentwise
`np.maximum(bounds_min, np.minimum(bounds_max, params))`; NaN parameters pass
through both `np.minimum` and `np.maximum` unclamped. -/
def enforce_bounds (bounds : List (ℚ × ℚ)) (params : List (Option ℚ)) :
    List (Option ℚ) :=
  List.zipWith (fun b p => npMax (some b.1) (npMin (some b.2) p)) bounds params

/-- Optimizer state tracked by the embedding of the `run` loop: the current
scaled parameter vector, the `params_hist` list appended to by the iteration
callback (optimizer.py, line 109), and the iteration counter. -/
structure GDState where
  current_params : List (Option ℚ)
  params_hist : List (List (Option ℚ))
  iteration : Nat

/-- Parameter vector after one iteration body of
`FixedStepGradientDescent.run`: the change computed from the gradients is
added to the current parameters, the noise vector of `add_noise` (an arbitrary
finite vector here) is added, and the bounds are enforced
(fixed_step_gradient_descent.py, lines 43-46). -/
def gdIterStep (bounds : List (ℚ × ℚ)) (maxDx : List ℚ) (allParamsEqual : Bool)
    (gradients noiseVec : List ℚ) (params : List (Option ℚ)) : List (Option ℚ) :=
  enforce_bounds bounds
    (List.zipWith npAdd
      (List.zipWith npAdd params (calculate_change allParamsEqual gradients maxDx))
      (noiseVec.map some))

/-- Embedding of the `while` loop of `FixedStepGradientDescent.run`
(fixed_step_gradient_descent.py, lines 39-48): each iteration replaces the
parameters with `gdIterStep` and records the resulting vector in the history
through the callback (optimizer.py, line 109). `fuel` is the number of
remaining iterations, `max_iter - iteration`. -/
def fixedStepGDLoop (bounds : List (ℚ × ℚ)) (maxDx : List ℚ) (allParamsEqual : Bool)
    (grad noise : Nat → List ℚ) : Nat → GDState → GDState
  | 0, s => s
  | fuel + 1, s =>
      fixedStepGDLoop bounds maxDx allParamsEqual grad noise fuel
        ⟨gdIterStep bounds maxDx allParamsEqual (grad s.iteration) (noise s.iteration)
            s.current_params,
          s.params_hist ++
            [gdIterStep bounds maxDx allParamsEqual (grad s.iteration) (noise s.iteration)
              s.current_params],
          s.iteration + 1⟩

/-- Embedding of `FixedStepGradientDescent.run` (fixed_step_gradient_descent.py,
lines 37-52): the loop starts from the finite scaled start point with an empty
history and runs for `max_iter` iterations. -/
def FixedStepGradientDescent_run (bounds : List (ℚ × ℚ)) (maxDx : List ℚ)
    (allParamsEqual : Bool) (grad noise : Nat → List ℚ) (maxIter : Nat)
    (startPoint : List ℚ) : GDState :=
  fixedStepGDLoop bounds maxDx allParamsEqual grad noise maxIter
    ⟨startPoint.map some, [], 0⟩

/-- Componentwise containment of a parameter vector in the bound intervals: a
NaN component is never within its bound. -/
def withinScaledBounds (bounds : List (ℚ × ℚ)) (v : List (Option ℚ)) : Prop :=
  List.Forall₂ (fun b x => ∃ q, x = some q ∧ b.1 ≤ q ∧ q ≤ b.2) bounds v

/-! ## design_automation/Waveguide/Waveguide_simulation.py -/

/-- Model of Python's `dict.pop(k)`: the entry keyed by `k` is removed. -/
def dictPop {α β : Type} [DecidableEq α] (d : List (α × β)) (k : α) : List (α × β) :=
  d.filter (fun p => p.1 != k)

/-- Outcome of the entry-removal loop at the top of
`WaveguideSimulation.loss_sweep_bend_radii`. -/
inductive RemoveLoopOutcome where
  | completed (d : List (List Char × ℚ))
  | runtimeError
deriving DecidableEq

/-- Embedding of the loop `for file, radius in radius_sweep_mapping.items(): if
radius*self.scale_factor > self.boundary_size: radius_sweep_mapping.pop(file)`
(Waveguide_simulation.py, lines 267-272), with CPython's dict-iterator
semantics: `used` is the dict size captured when the iterator was created, and
every advance of the iterator first compares the current size against `used`,
raising `RuntimeError: dictionary changed size during iteration` on mismatch
before touching any element. -/
def removeOversizedAux (scale boundary : ℚ) (used : Nat) :
    Nat → Nat → List (List Char × ℚ) → RemoveLoopOutcome
  | 0, _, d => .completed d
  | fuel + 1, i, d =>
      if d.length ≠ used then .runtimeError
      else if h : i < d.length then
        let e := d.get ⟨i, h⟩
        let d' := if boundary < e.2 * scale then dictPop d e.1 else d
        removeOversizedAux scale boundary used fuel (i + 1) d'
      else .completed d

/-- Observable outcome of `WaveguideSimulation.loss_sweep_bend_radii`: the
number of FDTD simulations started and the error it raised, if any. -/
structure LossSweepOutcome where
  simulationsRun : Nat
  raised : Option String
deriving DecidableEq

/-- Embedding of `WaveguideSimulation.loss_sweep_bend_radii`
(Waveguide_simulation.py, lines 267-311), restricted to its control flow: the
removal loop runs first; if it raises, the error propagates and no simulation
is performed; otherwise one simulation runs per remaining mapping entry. -/
def loss_sweep_bend_radii (scale boundary : ℚ) (radiusSweepMapping : List (List Char × ℚ)) :
    LossSweepOutcome :=
  match removeOversizedAux scale boundary radiusSweepMapping.length
      (radiusSweepMapping.length + 1) 0 radiusSweepMapping with
  | .runtimeError =>
      { simulationsRun := 0, raised := some "dictionary changed size during iteration" }
  | .completed d => { simulationsRun := d.length, raised := none }

/-! ## common/common_methods.py: the XML pretty printer

`prettify` (common_methods.py, lines 54-71) serializes an ElementTree element
with `ET.tostring`, re-parses it with `minidom.parseString` and returns
`toprettyxml(indent="  ")`. The serialize/parse step preserves the tree for
trees whose text nodes are nonempty and non-adjacent (expat merges contiguous
character data), so `prettify` is modelled as the minidom pretty printer
applied to the tree directly. The pretty printer follows CPython 3.8+
`minidom.writexml` with `indent="  "` and `newl="\n"`: declaration line, `/>`
for childless elements, a single text child written inline, and otherwise one
line per child at increased indentation, character data being written as
indent + escaped data + newline. Re-parsing a pretty string is modelled by an
ElementTree-style recursive-descent parser over the element/text/entity
fragment of XML that the printer emits. -/

/-- Escaping applied to character data by minidom's `_write_data`. -/
def escapeChar (c : Char) : List Char :=
  if c = '&' then "&amp;".data
  else if c = '<' then "&lt;".data
  else if c = '\"' then "&quot;".data
  else if c = '>' then "&gt;".data
  else [c]

/-- Escaping of a whole character-data run. -/
def escapeData (s : List Char) : List Char := (s.map escapeChar).flatten

mutual

/-- Pretty-printed form of one node at a given indentation, modelling
`minidom` `writexml` in pretty mode. -/
def prettyNode (indent : List Char) : XmlNode → List Char
  | .text data => indent ++ escapeData data ++ ['\n']
  | .elem tag children =>
      match children with
      | [] => indent ++ '<' :: (tag ++ "/>\n".data)
      | [.text data] =>
          indent ++ '<' :: (tag ++ '>' ::
            (escapeData data ++ '<' :: '/' :: (tag ++ ">\n".data)))
      | _ =>
          indent ++ '<' :: (tag ++ '>' :: '\n' ::
            (prettyForest (indent ++ "  ".data) children ++
              (indent ++ '<' :: '/' :: (tag ++ ">\n".data))))

/-- Pretty-printed forms of a list of children, in order. -/
def prettyForest (indent : List Char) : List XmlNode → List Char
  | [] => []
  | n :: ns => prettyNode indent n ++ prettyForest indent ns

end

/-- Declaration line written by `toprettyxml` when no encoding is passed. -/
def xmlHeader : List Char := "<?xml version=\"1.0\" ?>\n".data

/-- Embedding of `prettify` (common/common_methods.py, lines 54-71). -/
def prettify (root : XmlNode) : List Char := xmlHeader ++ prettyNode [] root

/-- Characters allowed in an element name by the modelled parser (the ASCII
fragment of the XML name characters). -/
def nameChar (c : Char) : Bool :=
  c.isAlpha || c.isDigit || c = '_' || c = '-' || c = '.' || c = ':'

/-- Whitespace as skipped after the document element. -/
def isSpaceChar (c : Char) : Bool :=
  c = ' ' || c = '\n' || c = '\t' || c = '\r'

/-- Predefined XML entity references, consumed right after a `&`. -/
def parseEntity : List Char → Option (Char × List Char)
  | 'a' :: 'm' :: 'p' :: ';' :: r => some ('&', r)
  | 'l' :: 't' :: ';' :: r => some ('<', r)
  | 'g' :: 't' :: ';' :: r => some ('>', r)
  | 'q' :: 'u' :: 'o' :: 't' :: ';' :: r => some ('\"', r)
  | 'a' :: 'p' :: 'o' :: 's' :: ';' :: r => some ('\'', r)
  | _ => none

/-- Character-data run: everything up to the next `<` or the end of input,
with entity references resolved. Returns the run and the remaining input. -/
def parseText : Nat → List Char → Option (List Char × List Char)
  | 0, _ => none
  | _ + 1, [] => some ([], [])
  | fuel + 1, c :: rest =>
      if c = '<' then some ([], c :: rest)
      else if c = '&' then
        match parseEntity rest with
        | none => none
        | some (e, r) =>
            match parseText fuel r with
            | none => none
            | some (t, r2) => some (e :: t, r2)
      else
        match parseText fuel rest with
        | none => none
        | some (t, r) => some (c :: t, r)

mutual

/-- Sequence of sibling nodes, ending at the end of input or right before a
closing tag, which is left in the remaining input. -/
def parseNodes : Nat → List Char → Option (List XmlNode × List Char)
  | 0, _ => none
  | _ + 1, [] => some ([], [])
  | fuel + 1, c :: rest =>
      if c = '<' then
        match rest with
        | '/' :: _ => some ([], c :: rest)
        | _ =>
            match parseElemBody fuel rest with
            | none => none
            | some (el, r) =>
                match parseNodes fuel r with
                | none => none
                | some (ns, r2) => some (el :: ns, r2)
      else
        match parseText ((c :: rest).length + 1) (c :: rest) with
        | none => none
        | some (t, r) =>
            match parseNodes fuel r with
            | none => none
            | some (ns, r2) => some (.text t :: ns, r2)

/-- Element whose opening `<` has already been consumed: name, then either
`/>` or `>`, children and the matching closing tag. -/
def parseElemBody : Nat → List Char → Option (XmlNode × List Char)
  | 0, _ => none
  | fuel + 1, s =>
      if s.takeWhile nameChar = [] then none
      else
        match s.drop (s.takeWhile nameChar).length with
        | '/' :: '>' :: r => some (.elem (s.takeWhile nameChar) [], r)
        | '>' :: r =>
            (match parseNodes fuel r with
            | none => none
            | some (children, r2) =>
                match r2 with
                | '<' :: '/' :: r3 =>
                    if (s.takeWhile nameChar ++ ['>']).isPrefixOf r3 then
                      some (.elem (s.takeWhile nameChar) children,
                        r3.drop ((s.takeWhile nameChar).length + 1))
                    else none
                | _ => none)
        | _ => none

end

/-- ElementTree-style parse of a whole document: an optional declaration, one
root element, trailing whitespace. -/
def parseDoc (s : List Char) : Option XmlNode :=
  match if xmlHeader.isPrefixOf s then s.drop xmlHeader.length else s with
  | '<' :: rest =>
      match parseElemBody (rest.length + 1) rest with
      | some (root, r) => if r.all isSpaceChar then some root else none
      | none => none
  | _ => none

/-- Well-formed element name for the modelled parser. -/
def validTag (tag : List Char) : Prop := tag ≠ [] ∧ tag.all nameChar = true

/-- Trees for which the amended claim C6 holds: a single element with a valid
name and either no children or one nonempty character-data child. -/
def FlatXml : XmlNode → Prop
  | .elem tag [] => validTag tag
  | .elem tag [.text s] => validTag tag ∧ s ≠ []
  | _ => False

/-! # Theorems -/

/-- Claim C9: for every cmd string not in {"template", "library", "install",
"test", "all", "runtests", "support"}, `CMLCompilerHelper.cml_compiler` returns
without raising, prints "Unsupported command... Exiting..." and invokes no
subprocess; for every cmd in that set it invokes the cml-compiler subprocess. -/
theorem C9_cml_compiler_unsupported_cmd (cmd : String) :
    (cmd ∉ supportedCompilerCmds →
      cml_compiler cmd =
        ⟨false, some "Unsupported command... Exiting..."⟩)
    ∧ (cmd ∈ supportedCompilerCmds → (cml_compiler cmd).subprocessInvoked = true) := by
  constructor
  · intro h
    simp [cml_compiler, h]
  · intro h
    simp [cml_compiler, h]

/-- Witness for C9: the concrete command "bogus" is rejected without starting a
subprocess, and the command "all" starts one. -/
theorem C9_cml_compiler_unsupported_cmd_witness :
    cml_compiler "bogus" = ⟨false, some "Unsupported command... Exiting..."⟩
    ∧ (cml_compiler "all").subprocessInvoked = true :=
  ⟨(C9_cml_compiler_unsupported_cmd "bogus").1 (by decide),
   (C9_cml_compiler_unsupported_cmd "all").2 (by decide)⟩

/-- Claim C2: when `CMLCompilerHelper.generate_cml` exists for the named CML and
the `cml_compiler("all", ...)` invocation (or the subsequent rename) raises,
then with exactly zero entries under `element_list` the method falls back to
packaging the user-authored models through INTERCONNECT, while with a non-empty
`element_list` a fatal exception is raised to the caller. -/
theorem C2_generate_cml_fallback (numElements : Nat) :
    (numElements = 0 → generate_cml true false numElements = .fallbackPackaged)
    ∧ (numElements ≠ 0 →
        generate_cml true false numElements =
          .raisedError "CML Compiler returned with an error... See above traceback...") := by
  constructor
  · intro h
    simp [generate_cml, h]
  · intro h
    simp [generate_cml, h]

/-- Witness for C2: with zero elements the fallback path is taken; with one
element an exception is raised. -/
theorem C2_generate_cml_fallback_witness :
    generate_cml true false 0 = .fallbackPackaged
    ∧ generate_cml true false 1 =
        .raisedError "CML Compiler returned with an error... See above traceback..." :=
  ⟨(C2_generate_cml_fallback 0).1 rfl,
   (C2_generate_cml_fallback 1).2 (by decide)⟩

/-- Claim C3: `DRCCheck.run_drc` returns True exactly when the GDS file exists,
a rule deck path is available, and the final continue prompt is answered
affirmatively (lowercasing to "yes" or "y"); when the GDS path does not exist
or no `.lydrc` deck is found, it returns False without starting the DRC
subprocess. -/
theorem C3_run_drc_gating (cached : String) (env : DRCRunEnv) :
    ((run_drc cached env).returned = true ↔
      env.gdsFileExists = true
      ∧ (cached ≠ "" ∨ env.foundDeckPath.getD "" ≠ "")
      ∧ (strLower env.continueAnswer = "yes" ∨ strLower env.continueAnswer = "y"))
    ∧ (env.gdsFileExists = false → run_drc cached env = ⟨false, false⟩)
    ∧ (cached = "" → env.foundDeckPath = none → run_drc cached env = ⟨false, false⟩) := by
  refine ⟨?_, ?_, ?_⟩
  · unfold run_drc prompt_continue
    by_cases hg : env.gdsFileExists
    · simp only [hg]
      by_cases hc : cached = ""
      · by_cases hf : env.foundDeckPath.getD "" = ""
        · simp [hc, hf]
        · simp [hc, hf]
      · simp [hc]
    · simp [hg]
  · intro h
    simp [run_drc, h]
  · intro hc hf
    simp [run_drc, hc, hf]

/-- Witness for C3: with a missing GDS file nothing runs and False is returned;
with everything available and the answer "Yes" the call returns True having run
the DRC subprocess. -/
theorem C3_run_drc_gating_witness :
    run_drc "" ⟨false, some "deck.lydrc", "No", "Yes"⟩ = ⟨false, false⟩
    ∧ (run_drc "" ⟨true, some "deck.lydrc", "No", "Yes"⟩).returned = true :=
  ⟨(C3_run_drc_gating "" ⟨false, some "deck.lydrc", "No", "Yes"⟩).2.1 rfl,
   (C3_run_drc_gating "" ⟨true, some "deck.lydrc", "No", "Yes"⟩).1.mpr
     (by refine ⟨rfl, Or.inr ?_, Or.inl ?_⟩ <;> decide)⟩

/-- Claim C4: the forward-solve evaluation (`Optimization.callable_fom` via
`process_forward_sim`) raises an error to its caller if and only if the status
retrieved from the external solver is neither 1 nor 2; for status 1 or 2 it
returns the figure-of-merit scalar, and `runjobs` is issued exactly once (no
retry) in every case. -/
theorem C4_forward_solve_status (sim : SimModel) (fom : ℚ)
    (hsolver : sim.numFDTD = 1) :
    ((∃ e, (callable_fom sim fom).result = .error e) ↔
      ¬ (sim.fdtdStatus = 1 ∨ sim.fdtdStatus = 2))
    ∧ ((callable_fom sim fom).result = .ok fom ↔
      (sim.fdtdStatus = 1 ∨ sim.fdtdStatus = 2))
    ∧ (callable_fom sim fom).runjobsCalls = 1 := by
  have hstat : getSimulationStatus sim = .ok sim.fdtdStatus := by
    simp [getSimulationStatus, hsolver]
  by_cases h : sim.fdtdStatus = 1 ∨ sim.fdtdStatus = 2
  · refine ⟨?_, ?_, rfl⟩
    · simp only [callable_fom, process_forward_sim, check_simulation_was_successful, hstat]
      rcases h with h | h <;> simp [h]
    · simp only [callable_fom, process_forward_sim, check_simulation_was_successful, hstat]
      rcases h with h | h <;> simp [h]
  · push_neg at h
    refine ⟨?_, ?_, rfl⟩
    · simp only [callable_fom, process_forward_sim, check_simulation_was_successful, hstat]
      simp [h.1, h.2]
    · simp only [callable_fom, process_forward_sim, check_simulation_was_successful, hstat]
      simp [h.1, h.2]

/-- Helper for C7: on every forest, filtering the document-order element
iteration for tag `item` finds exactly the structurally counted occurrences. -/
theorem iterForest_filter_item_length (ts : List XmlNode) :
    (List.filter isItemElem (iterForest ts)).length = countItemForest ts := by
  match ts with
  | [] => simp [iterForest, countItemForest]
  | .text d :: ts =>
      rw [iterForest, countItemForest]
      exact iterForest_filter_item_length ts
  | .elem tag children :: ts =>
      have h1 := iterForest_filter_item_length children
      have h2 := iterForest_filter_item_length ts
      rw [iterForest, countItemForest, List.filter_cons]
      by_cases h : tag = "item".data
      · rw [if_pos (by simp [isItemElem, h]), if_pos h]
        simp only [List.length_cons, List.filter_append, List.length_append, h1, h2]
        omega
      · rw [if_neg (by simp [isItemElem, h]), if_neg h]
        simp only [List.filter_append, List.length_append, h1, h2]
        omega
termination_by sizeOf ts

/-- Claim C7: for every well-formed XML results-database tree,
`DRCCheck.get_total_drc_errors` returns exactly the number of elements with
tag `item` contained in it, at any depth. -/
theorem C7_get_total_drc_errors_counts_items (root : XmlNode) :
    get_total_drc_errors root = countItemElems root := by
  rw [get_total_drc_errors, countItemElems]
  exact iterForest_filter_item_length [root]

/-- Witness for C4: a solver reporting status 3 makes the forward solve raise,
a solver reporting status 2 returns the figure of merit, and both issue
`runjobs` exactly once. -/
theorem C4_forward_solve_status_witness :
    (∃ e, (callable_fom ⟨1, 0, 3, 0⟩ (7 : ℚ)).result = .error e)
    ∧ (callable_fom ⟨1, 0, 2, 0⟩ (7 : ℚ)).result = .ok 7
    ∧ (callable_fom ⟨1, 0, 3, 0⟩ (7 : ℚ)).runjobsCalls = 1 :=
  ⟨(C4_forward_solve_status ⟨1, 0, 3, 0⟩ 7 rfl).1.mpr (by decide),
   (C4_forward_solve_status ⟨1, 0, 2, 0⟩ 7 rfl).2.1.mpr (by decide),
   (C4_forward_solve_status ⟨1, 0, 3, 0⟩ 7 rfl).2.2⟩

/-- Helper: the character of a decimal digit has the code point 48 + d. -/
theorem digitChar_toNat {d : Nat} (h : d < 10) : (digitChar d).toNat = 48 + d := by
  interval_cases d <;> rfl

/-- Helper: every character of a decimal rendering is a decimal digit. -/
theorem natToDigitsAux_bounds :
    ∀ fuel n c, c ∈ natToDigitsAux fuel n → 48 ≤ c.toNat ∧ c.toNat ≤ 57 := by
  intro fuel
  induction fuel with
  | zero => intro n c h; simp [natToDigitsAux] at h
  | succ fuel ih =>
      intro n c h
      rw [natToDigitsAux] at h
      by_cases hn : n < 10
      · rw [if_pos hn] at h
        rw [List.mem_singleton] at h
        subst h
        rw [digitChar_toNat hn]
        omega
      · rw [if_neg hn] at h
        rw [List.mem_append, List.mem_singleton] at h
        rcases h with h | h
        · exact ih _ _ h
        · subst h
          rw [digitChar_toNat (Nat.mod_lt _ (by norm_num))]
          omega

/-- Helper: a decimal rendering with positive fuel is nonempty. -/
theorem natToDigitsAux_ne_nil (fuel n : Nat) (h : fuel ≠ 0) :
    natToDigitsAux fuel n ≠ [] := by
  match fuel with
  | 0 => exact absurd rfl h
  | fuel + 1 =>
      rw [natToDigitsAux]
      by_cases hn : n < 10
      · rw [if_pos hn]; simp
      · rw [if_neg hn]; simp

/-- Helper: folding the decimal digits of `n` back up recovers `n`. -/
theorem natToDigitsAux_val :
    ∀ fuel n, n < fuel →
      (natToDigitsAux fuel n).foldl (fun acc c => 10 * acc + digitVal c) 0 = n := by
  intro fuel
  induction fuel with
  | zero => intro n hn; omega
  | succ fuel ih =>
      intro n hn
      rw [natToDigitsAux]
      by_cases h : n < 10
      · rw [if_pos h]
        simp [digitVal, digitChar_toNat h]
      · rw [if_neg h, List.foldl_append]
        have hdiv : n / 10 < n := Nat.div_lt_self (by omega) (by norm_num)
        rw [ih (n / 10) (by omega)]
        simp only [List.foldl_cons, List.foldl_nil, digitVal,
          digitChar_toNat (Nat.mod_lt n (by norm_num))]
        omega

/-- Helper: Python's `int` applied to the decimal rendering of `n` gives `n`. -/
theorem parseIntDigits_natToDigits (n : Nat) :
    parseIntDigits (natToDigits n) = some n := by
  rw [parseIntDigits, if_pos, natToDigits, natToDigitsAux_val (n + 1) n (Nat.lt_succ_self n)]
  constructor
  · exact natToDigitsAux_ne_nil _ _ (Nat.succ_ne_zero n)
  · rw [List.all_eq_true]
    intro c hc
    have h := natToDigitsAux_bounds _ _ c hc
    simp only [Bool.and_eq_true, decide_eq_true_eq]
    omega

/-- Helper: digits are distinct from the separators '/' and '@'. -/
theorem digit_ne_sep {c : Char} (h : 48 ≤ c.toNat ∧ c.toNat ≤ 57) :
    c ≠ '/' ∧ c ≠ '@' := by
  constructor
  · intro he
    have : c.toNat = 47 := by rw [he]; rfl
    omega
  · intro he
    have : c.toNat = 64 := by rw [he]; rfl
    omega

/-- Helper: a split never produces the empty list of parts. -/
theorem splitOnChar_ne_nil (sep : Char) : ∀ l, splitOnChar sep l ≠ [] := by
  intro l
  induction l with
  | nil => simp [splitOnChar]
  | cons c rest ih =>
      rw [splitOnChar]
      cases h : splitOnChar sep rest with
      | nil => exact absurd h ih
      | cons cur parts => by_cases hc : c = sep <;> simp [hc]

/-- Helper: a list free of the separator splits into itself alone. -/
theorem splitOnChar_of_not_mem {sep : Char} :
    ∀ {l : List Char}, sep ∉ l → splitOnChar sep l = [l] := by
  intro l
  induction l with
  | nil => intro _; rfl
  | cons c rest ih =>
      intro h
      have hc : ¬ (c = sep) := fun hceq => h (by rw [← hceq]; exact List.mem_cons_self c rest)
      rw [splitOnChar, ih (fun hm => h (List.mem_cons_of_mem _ hm))]
      simp [hc]

/-- Helper: splitting at the first separator occurrence peels off the prefix. -/
theorem splitOnChar_append {sep : Char} :
    ∀ {a : List Char}, ∀ b, sep ∉ a →
      splitOnChar sep (a ++ sep :: b) = a :: splitOnChar sep b := by
  intro a
  induction a with
  | nil =>
      intro b _
      rw [List.nil_append, splitOnChar]
      cases h : splitOnChar sep b with
      | nil => exact absurd h (splitOnChar_ne_nil sep b)
      | cons cur parts => simp
  | cons c a ih =>
      intro b h
      have hc : ¬ (c = sep) := fun hceq => h (by rw [← hceq]; exact List.mem_cons_self c a)
      rw [List.cons_append, splitOnChar, ih b (fun hm => h (List.mem_cons_of_mem _ hm))]
      simp [hc]

/-- Helper: parsing a rendered `"N/D@M"` source recovers `(N, D)`. -/
theorem parseLayerSource_renderSource (n d m : Nat) :
    parseLayerSource (renderSource n d m) = some (n, d) := by
  have hn : '@' ∉ natToDigits n ++ '/' :: natToDigits d := by
    rw [List.mem_append, List.mem_cons]
    rintro (h | h | h)
    · exact (digit_ne_sep (natToDigitsAux_bounds _ _ _ h)).2 rfl
    · exact absurd h.symm (by decide)
    · exact (digit_ne_sep (natToDigitsAux_bounds _ _ _ h)).2 rfl
  have hshape : renderSource n d m =
      (natToDigits n ++ '/' :: natToDigits d) ++ '@' :: natToDigits m := by
    simp [renderSource]
  have hslashn : '/' ∉ natToDigits n := fun h =>
    (digit_ne_sep (natToDigitsAux_bounds _ _ _ h)).1 rfl
  have hslashd : '/' ∉ natToDigits d := fun h =>
    (digit_ne_sep (natToDigitsAux_bounds _ _ _ h)).1 rfl
  have h1 : splitOnChar '/' (natToDigits n ++ '/' :: natToDigits d) =
      [natToDigits n, natToDigits d] := by
    rw [splitOnChar_append (natToDigits d) hslashn, splitOnChar_of_not_mem hslashd]
  rw [parseLayerSource, hshape, splitOnChar_append _ hn]
  simp [h1, parseIntDigits_natToDigits]

/-- Helper: looking up the key just written by a Python dict assignment. -/
theorem lookup_dictInsert_self {α β : Type} [DecidableEq α]
    (d : List (α × β)) (k : α) (v : β) :
    List.lookup k (dictInsert d k v) = some v := by
  induction d with
  | nil => simp [dictInsert, List.lookup]
  | cons p rest ih =>
      obtain ⟨k', v'⟩ := p
      rw [dictInsert]
      by_cases h : k' = k
      · rw [if_pos h]; simp [List.lookup]
      · rw [if_neg h]
        have hb : (k == k') = false := by
          simp only [beq_eq_false_iff_ne, ne_eq]
          exact fun he => h he.symm
        simp [List.lookup, hb, ih]

/-- Helper: a Python dict assignment leaves other keys unchanged. -/
theorem lookup_dictInsert_ne {α β : Type} [DecidableEq α]
    (d : List (α × β)) {k k' : α} (v : β) (h : k ≠ k') :
    List.lookup k (dictInsert d k' v) = List.lookup k d := by
  induction d with
  | nil =>
      have hb : (k == k') = false := by simpa using h
      simp [dictInsert, List.lookup, hb]
  | cons p rest ih =>
      obtain ⟨k₀, v₀⟩ := p
      rw [dictInsert]
      by_cases h0 : k₀ = k'
      · rw [if_pos h0]
        have hb : (k == k') = false := by simpa using h
        have hb0 : (k == k₀) = false := by
          simp only [beq_eq_false_iff_ne, ne_eq]
          intro he; exact h (he.trans h0)
        simp [List.lookup, hb, hb0]
      · rw [if_neg h0]
        by_cases he : k = k₀
        · subst he; simp [List.lookup]
        · have hb0 : (k == k₀) = false := by simpa using he
          simp [List.lookup, hb0, ih]

/-- Helper: layers that store nothing under a name leave its lookup intact. -/
theorem layerSourcesFold_lookup_of_not_mem :
    ∀ (layers : List LayerEntry) (acc : List (String × List Char)) (nm : String),
      nm ∉ storedLayerNames layers →
      List.lookup nm (layers.foldl
        (fun acc layer =>
          if layer.hasLayerProps ∧ layer.includeLayer then
            match layer.name with
            | some nm' => dictInsert acc nm' layer.source
            | none => acc
          else acc) acc) = List.lookup nm acc := by
  intro layers
  induction layers with
  | nil => intro acc nm _; rfl
  | cons layer rest ih =>
      intro acc nm h
      rw [List.foldl_cons]
      by_cases hq : layer.hasLayerProps ∧ layer.includeLayer
      · rw [if_pos hq]
        cases hname : layer.name with
        | none =>
            refine (ih acc nm ?_)
            intro hm
            exact h (by rw [storedLayerNames, List.filterMap_cons, if_pos hq, hname]; exact hm)
        | some nm' =>
            have hne : nm ≠ nm' := by
              intro he
              exact h (by
                rw [storedLayerNames, List.filterMap_cons, if_pos hq, hname]
                rw [he]
                exact List.mem_cons_self _ _)
            have htail : nm ∉ storedLayerNames rest := by
              intro hm
              exact h (by
                rw [storedLayerNames, List.filterMap_cons, if_pos hq, hname]
                exact List.mem_cons_of_mem _ hm)
            rw [ih _ nm htail, lookup_dictInsert_ne acc layer.source hne]
      · rw [if_neg hq]
        refine ih acc nm ?_
        intro hm
        exact h (by rw [storedLayerNames, List.filterMap_cons, if_neg hq]; exact hm)

/-- Helper: the stored source of a uniquely named qualifying layer can be
looked up unmodified after the whole fold. -/
theorem layerSourcesFold_lookup :
    ∀ (layers : List LayerEntry) (acc : List (String × List Char))
      (l : LayerEntry) (nm : String),
      l ∈ layers → l.hasLayerProps = true → l.includeLayer = true →
      l.name = some nm → (storedLayerNames layers).Nodup →
      List.lookup nm (layers.foldl
        (fun acc layer =>
          if layer.hasLayerProps ∧ layer.includeLayer then
            match layer.name with
            | some nm' => dictInsert acc nm' layer.source
            | none => acc
          else acc) acc) = some l.source := by
  intro layers
  induction layers with
  | nil => intro acc l nm hmem; exact absurd hmem (List.not_mem_nil l)
  | cons layer rest ih =>
      intro acc l nm hmem hprops hincl hname hnodup
      rw [List.foldl_cons]
      rcases List.mem_cons.mp hmem with heq | hmem'
      · subst heq
        have hq : l.hasLayerProps ∧ l.includeLayer := ⟨hprops, hincl⟩
        rw [if_pos hq, hname]
        have hstored : storedLayerNames (l :: rest) = nm :: storedLayerNames rest := by
          rw [storedLayerNames, List.filterMap_cons, if_pos hq, hname, storedLayerNames]
        rw [hstored] at hnodup
        have htail : nm ∉ storedLayerNames rest := (List.nodup_cons.mp hnodup).1
        rw [layerSourcesFold_lookup_of_not_mem rest _ nm htail,
          lookup_dictInsert_self]
      · have htailnodup : (storedLayerNames rest).Nodup := by
          rw [storedLayerNames, List.filterMap_cons] at hnodup
          by_cases hq : layer.hasLayerProps ∧ layer.includeLayer
          · rw [if_pos hq] at hnodup
            cases hname' : layer.name with
            | none => rw [hname'] at hnodup; exact hnodup
            | some nm' =>
                rw [hname'] at hnodup
                exact (List.nodup_cons.mp hnodup).2
          · rw [if_neg hq] at hnodup; exact hnodup
        exact ih _ l nm hmem' hprops hincl hname htailnodup

/-- Claim C5: for every Process YAML layer list in which stored names are not
repeated, a qualifying layer whose source string has the form `"N/D@M"` is
stored by the layer-stack transducer unmodified, and parsing the stored string
back through `FoundryDRC.get_DRC_params`'s split logic yields exactly the pair
`(layer_number, datatype) = (N, D)`. -/
theorem C5_layer_source_round_trip (layers : List LayerEntry) (l : LayerEntry)
    (nm : String) (n d m : Nat)
    (hmem : l ∈ layers) (hprops : l.hasLayerProps = true)
    (hincl : l.includeLayer = true) (hname : l.name = some nm)
    (hnodup : (storedLayerNames layers).Nodup)
    (hsrc : l.source = renderSource n d m) :
    List.lookup nm (get_layer_formatting_sources layers) = some (renderSource n d m)
    ∧ parseLayerSource (renderSource n d m) = some (n, d) := by
  constructor
  · rw [get_layer_formatting_sources, ← hsrc]
    exact layerSourcesFold_lookup layers [] l nm hmem hprops hincl hname hnodup
  · exact parseLayerSource_renderSource n d m

/-- Witness for C5: a single silicon layer with source "1/0@1" is stored
verbatim and parses back to layer number 1 and datatype 0. -/
theorem C5_layer_source_round_trip_witness :
    List.lookup "Si"
      (get_layer_formatting_sources
        [⟨some "Si", none, "1/0@1".data, true, true⟩]) = some (renderSource 1 0 1)
    ∧ parseLayerSource (renderSource 1 0 1) = some (1, 0) :=
  C5_layer_source_round_trip
    [⟨some "Si", none, "1/0@1".data, true, true⟩]
    ⟨some "Si", none, "1/0@1".data, true, true⟩
    "Si" 1 0 1 (List.mem_singleton.mpr rfl) rfl rfl rfl (by decide) (by decide)

/-- Helper: assigning a key absent from a Python dict appends the entry. -/
theorem dictInsert_fresh {α β : Type} [DecidableEq α] :
    ∀ {d : List (α × β)} {k : α} (v : β), (∀ p ∈ d, p.1 ≠ k) →
      dictInsert d k v = d ++ [(k, v)] := by
  intro d
  induction d with
  | nil => intro k v _; rfl
  | cons p rest ih =>
      intro k v h
      obtain ⟨k', v'⟩ := p
      rw [dictInsert, if_neg (h (k', v') (List.mem_cons_self _ _)),
        ih v (fun q hq => h q (List.mem_cons_of_mem _ hq))]
      rfl

/-- Helper: when all file names produced by the radius sweep are fresh, the
dict built by the loop is the accumulator followed by the visit-order entry
list. -/
theorem sweepRadiusAux_eq_entries (gdsDir : List Char) (maxRadius res : ℚ) :
    ∀ (fuel : Nat) (r : ℚ) (acc : List (List Char × ℚ)),
      (∀ p ∈ acc,
        p.1 ∉ (sweepRadiusEntries gdsDir maxRadius res fuel r).map Prod.fst) →
      ((sweepRadiusEntries gdsDir maxRadius res fuel r).map Prod.fst).Nodup →
      sweepRadiusAux gdsDir maxRadius res fuel r acc =
        acc ++ sweepRadiusEntries gdsDir maxRadius res fuel r := by
  intro fuel
  induction fuel with
  | zero => intro r acc _ _; simp [sweepRadiusAux, sweepRadiusEntries]
  | succ fuel ih =>
      intro r acc hdisj hnodup
      rw [sweepRadiusAux, sweepRadiusEntries]
      rw [sweepRadiusEntries] at hdisj hnodup
      by_cases hr : r ≤ maxRadius
      · simp only [if_pos hr]
        simp only [if_pos hr, List.map_cons, List.nodup_cons] at hdisj hnodup
        have hfresh : ∀ p ∈ acc, p.1 ≠ waveguideGdsPath gdsDir r := by
          intro p hp he
          exact (hdisj p hp) (List.mem_cons.mpr (Or.inl he))
        rw [dictInsert_fresh r hfresh]
        rw [ih (r + res) (acc ++ [(waveguideGdsPath gdsDir r, r)]) ?disj hnodup.2]
        · simp
        case disj =>
          intro p hp
          rcases List.mem_append.mp hp with hp | hp
          · intro hm
            exact (hdisj p hp) (List.mem_cons.mpr (Or.inr hm))
          · rw [List.mem_singleton] at hp
            subst hp
            exact hnodup.1
      · simp only [if_neg hr]
        simp

/-- Claim C8: `WaveguideStripGeometry.sweep_radius` with radius range `[1, 10]`
and resolution 1 performs exactly 10 loop iterations, producing a mapping with
exactly 10 distinct GDS file paths keyed in insertion order by the radii
1, 2, ..., 10, which are strictly increasing. -/
theorem C8_sweep_radius_ten_files (gdsDir : List Char) :
    (sweep_radius gdsDir (1, 10) 1).length = 10
    ∧ (sweep_radius gdsDir (1, 10) 1).map Prod.snd =
        [1, 2, 3, 4, 5, 6, 7, 8, 9, 10]
    ∧ ((sweep_radius gdsDir (1, 10) 1).map Prod.fst).Nodup
    ∧ List.Chain' (fun a b => a < b) ((sweep_radius gdsDir (1, 10) 1).map Prod.snd) := by
  have kl1 : waveguideGdsPath gdsDir 1 = gdsDir ++ "/Waveguide_r=1000nm.gds".data := by
    rw [waveguideGdsPath, show pyTrunc ((1:ℚ) * 1000) = 1000 from by norm_num [pyTrunc]]
    exact congrArg (fun t => gdsDir ++ t) (by decide)
  have kl2 : waveguideGdsPath gdsDir 2 = gdsDir ++ "/Waveguide_r=2000nm.gds".data := by
    rw [waveguideGdsPath, show pyTrunc ((2:ℚ) * 1000) = 2000 from by norm_num [pyTrunc]]
    exact congrArg (fun t => gdsDir ++ t) (by decide)
  have kl3 : waveguideGdsPath gdsDir 3 = gdsDir ++ "/Waveguide_r=3000nm.gds".data := by
    rw [waveguideGdsPath, show pyTrunc ((3:ℚ) * 1000) = 3000 from by norm_num [pyTrunc]]
    exact congrArg (fun t => gdsDir ++ t) (by decide)
  have kl4 : waveguideGdsPath gdsDir 4 = gdsDir ++ "/Waveguide_r=4000nm.gds".data := by
    rw [waveguideGdsPath, show pyTrunc ((4:ℚ) * 1000) = 4000 from by norm_num [pyTrunc]]
    exact congrArg (fun t => gdsDir ++ t) (by decide)
  have kl5 : waveguideGdsPath gdsDir 5 = gdsDir ++ "/Waveguide_r=5000nm.gds".data := by
    rw [waveguideGdsPath, show pyTrunc ((5:ℚ) * 1000) = 5000 from by norm_num [pyTrunc]]
    exact congrArg (fun t => gdsDir ++ t) (by decide)
  have kl6 : waveguideGdsPath gdsDir 6 = gdsDir ++ "/Waveguide_r=6000nm.gds".data := by
    rw [waveguideGdsPath, show pyTrunc ((6:ℚ) * 1000) = 6000 from by norm_num [pyTrunc]]
    exact congrArg (fun t => gdsDir ++ t) (by decide)
  have kl7 : waveguideGdsPath gdsDir 7 = gdsDir ++ "/Waveguide_r=7000nm.gds".data := by
    rw [waveguideGdsPath, show pyTrunc ((7:ℚ) * 1000) = 7000 from by norm_num [pyTrunc]]
    exact congrArg (fun t => gdsDir ++ t) (by decide)
  have kl8 : waveguideGdsPath gdsDir 8 = gdsDir ++ "/Waveguide_r=8000nm.gds".data := by
    rw [waveguideGdsPath, show pyTrunc ((8:ℚ) * 1000) = 8000 from by norm_num [pyTrunc]]
    exact congrArg (fun t => gdsDir ++ t) (by decide)
  have kl9 : waveguideGdsPath gdsDir 9 = gdsDir ++ "/Waveguide_r=9000nm.gds".data := by
    rw [waveguideGdsPath, show pyTrunc ((9:ℚ) * 1000) = 9000 from by norm_num [pyTrunc]]
    exact congrArg (fun t => gdsDir ++ t) (by decide)
  have kl10 : waveguideGdsPath gdsDir 10 = gdsDir ++ "/Waveguide_r=10000nm.gds".data := by
    rw [waveguideGdsPath, show pyTrunc ((10:ℚ) * 1000) = 10000 from by norm_num [pyTrunc]]
    exact congrArg (fun t => gdsDir ++ t) (by decide)
  have s11 : sweepRadiusEntries gdsDir 10 1 1 11 = [] := by
    rw [sweepRadiusEntries, if_neg (by norm_num)]
  have s10 : sweepRadiusEntries gdsDir 10 1 2 10 = [(waveguideGdsPath gdsDir 10, 10)] := by
    rw [sweepRadiusEntries, if_pos (by norm_num), show (10:ℚ) + 1 = 11 from by norm_num, s11]
  have s9 : sweepRadiusEntries gdsDir 10 1 3 9 =
      [(waveguideGdsPath gdsDir 9, 9), (waveguideGdsPath gdsDir 10, 10)] := by
    rw [sweepRadiusEntries, if_pos (by norm_num), show (9:ℚ) + 1 = 10 from by norm_num, s10]
  have s8 : sweepRadiusEntries gdsDir 10 1 4 8 =
      [(waveguideGdsPath gdsDir 8, 8), (waveguideGdsPath gdsDir 9, 9),
       (waveguideGdsPath gdsDir 10, 10)] := by
    rw [sweepRadiusEntries, if_pos (by norm_num), show (8:ℚ) + 1 = 9 from by norm_num, s9]
  have s7 : sweepRadiusEntries gdsDir 10 1 5 7 =
      [(waveguideGdsPath gdsDir 7, 7), (waveguideGdsPath gdsDir 8, 8),
       (waveguideGdsPath gdsDir 9, 9), (waveguideGdsPath gdsDir 10, 10)] := by
    rw [sweepRadiusEntries, if_pos (by norm_num), show (7:ℚ) + 1 = 8 from by norm_num, s8]
  have s6 : sweepRadiusEntries gdsDir 10 1 6 6 =
      [(waveguideGdsPath gdsDir 6, 6), (waveguideGdsPath gdsDir 7, 7),
       (waveguideGdsPath gdsDir 8, 8), (waveguideGdsPath gdsDir 9, 9),
       (waveguideGdsPath gdsDir 10, 10)] := by
    rw [sweepRadiusEntries, if_pos (by norm_num), show (6:ℚ) + 1 = 7 from by norm_num, s7]
  have s5 : sweepRadiusEntries gdsDir 10 1 7 5 =
      [(waveguideGdsPath gdsDir 5, 5), (waveguideGdsPath gdsDir 6, 6),
       (waveguideGdsPath gdsDir 7, 7), (waveguideGdsPath gdsDir 8, 8),
       (waveguideGdsPath gdsDir 9, 9), (waveguideGdsPath gdsDir 10, 10)] := by
    rw [sweepRadiusEntries, if_pos (by norm_num), show (5:ℚ) + 1 = 6 from by norm_num, s6]
  have s4 : sweepRadiusEntries gdsDir 10 1 8 4 =
      [(waveguideGdsPath gdsDir 4, 4), (waveguideGdsPath gdsDir 5, 5),
       (waveguideGdsPath gdsDir 6, 6), (waveguideGdsPath gdsDir 7, 7),
       (waveguideGdsPath gdsDir 8, 8), (waveguideGdsPath gdsDir 9, 9),
       (waveguideGdsPath gdsDir 10, 10)] := by
    rw [sweepRadiusEntries, if_pos (by norm_num), show (4:ℚ) + 1 = 5 from by norm_num, s5]
  have s3 : sweepRadiusEntries gdsDir 10 1 9 3 =
      [(waveguideGdsPath gdsDir 3, 3), (waveguideGdsPath gdsDir 4, 4),
       (waveguideGdsPath gdsDir 5, 5), (waveguideGdsPath gdsDir 6, 6),
       (waveguideGdsPath gdsDir 7, 7), (waveguideGdsPath gdsDir 8, 8),
       (waveguideGdsPath gdsDir 9, 9), (waveguideGdsPath gdsDir 10, 10)] := by
    rw [sweepRadiusEntries, if_pos (by norm_num), show (3:ℚ) + 1 = 4 from by norm_num, s4]
  have s2 : sweepRadiusEntries gdsDir 10 1 10 2 =
      [(waveguideGdsPath gdsDir 2, 2), (waveguideGdsPath gdsDir 3, 3),
       (waveguideGdsPath gdsDir 4, 4), (waveguideGdsPath gdsDir 5, 5),
       (waveguideGdsPath gdsDir 6, 6), (waveguideGdsPath gdsDir 7, 7),
       (waveguideGdsPath gdsDir 8, 8), (waveguideGdsPath gdsDir 9, 9),
       (waveguideGdsPath gdsDir 10, 10)] := by
    rw [sweepRadiusEntries, if_pos (by norm_num), show (2:ℚ) + 1 = 3 from by norm_num, s3]
  have s1 : sweepRadiusEntries gdsDir 10 1 11 1 =
      [(waveguideGdsPath gdsDir 1, 1), (waveguideGdsPath gdsDir 2, 2),
       (waveguideGdsPath gdsDir 3, 3), (waveguideGdsPath gdsDir 4, 4),
       (waveguideGdsPath gdsDir 5, 5), (waveguideGdsPath gdsDir 6, 6),
       (waveguideGdsPath gdsDir 7, 7), (waveguideGdsPath gdsDir 8, 8),
       (waveguideGdsPath gdsDir 9, 9), (waveguideGdsPath gdsDir 10, 10)] := by
    rw [sweepRadiusEntries, if_pos (by norm_num), show (1:ℚ) + 1 = 2 from by norm_num, s2]
  have hent : sweepRadiusEntries gdsDir 10 1 11 1 =
      [(gdsDir ++ "/Waveguide_r=1000nm.gds".data, 1),
       (gdsDir ++ "/Waveguide_r=2000nm.gds".data, 2),
       (gdsDir ++ "/Waveguide_r=3000nm.gds".data, 3),
       (gdsDir ++ "/Waveguide_r=4000nm.gds".data, 4),
       (gdsDir ++ "/Waveguide_r=5000nm.gds".data, 5),
       (gdsDir ++ "/Waveguide_r=6000nm.gds".data, 6),
       (gdsDir ++ "/Waveguide_r=7000nm.gds".data, 7),
       (gdsDir ++ "/Waveguide_r=8000nm.gds".data, 8),
       (gdsDir ++ "/Waveguide_r=9000nm.gds".data, 9),
       (gdsDir ++ "/Waveguide_r=10000nm.gds".data, 10)] := by
    rw [s1, kl1, kl2, kl3, kl4, kl5, kl6, kl7, kl8, kl9, kl10]
  have hkeys : (sweepRadiusEntries gdsDir 10 1 11 1).map Prod.fst =
      List.map (fun s => gdsDir ++ s)
        ["/Waveguide_r=1000nm.gds".data, "/Waveguide_r=2000nm.gds".data,
         "/Waveguide_r=3000nm.gds".data, "/Waveguide_r=4000nm.gds".data,
         "/Waveguide_r=5000nm.gds".data, "/Waveguide_r=6000nm.gds".data,
         "/Waveguide_r=7000nm.gds".data, "/Waveguide_r=8000nm.gds".data,
         "/Waveguide_r=9000nm.gds".data, "/Waveguide_r=10000nm.gds".data] := by
    rw [hent]
    rfl
  have hnodup : ((sweepRadiusEntries gdsDir 10 1 11 1).map Prod.fst).Nodup := by
    rw [hkeys]
    refine List.Nodup.map (fun a b h => List.append_cancel_left h) ?_
    decide
  have hfuel : sweepRadiusFuel (1, 10) 1 = 11 := by
    rw [sweepRadiusFuel]
    norm_num
    rfl
  have hmain : sweep_radius gdsDir (1, 10) 1 = sweepRadiusEntries gdsDir 10 1 11 1 := by
    have h0 := sweepRadiusAux_eq_entries gdsDir 10 1 11 1 [] (by simp) hnodup
    rw [List.nil_append] at h0
    rw [sweep_radius, hfuel]
    exact h0
  refine ⟨?_, ?_, ?_, ?_⟩
  · rw [hmain, hent]; rfl
  · rw [hmain, hent]; rfl
  · rw [hmain]; exact hnodup
  · rw [hmain, hent]
    simp only [List.map_cons, List.map_nil, List.chain'_cons, List.chain'_singleton,
      and_true]
    norm_num

/-- Helper: every entry produced by a zipWith whose function always returns a
finite scalar is finite. -/
theorem mem_zipWith_some {A B : Type} (f : A → B → Option ℚ)
    (hf : ∀ a b, ∃ q, f a b = some q) :
    ∀ (u : List A) (v : List B), ∀ x ∈ List.zipWith f u v, ∃ q, x = some q := by
  intro u
  induction u with
  | nil => intro v x hx; simp at hx
  | cons a as ih =>
      intro v x hx
      cases v with
      | nil => simp at hx
      | cons b bs =>
          rw [List.zipWith_cons_cons] at hx
          rcases List.mem_cons.mp hx with hx | hx
          · subst hx; exact hf a b
          · exact ih bs x hx

/-- Helper: a NaN-propagating operation applied to finite vectors yields a
finite vector. -/
theorem zipWithOpt_finite (f : Option ℚ → Option ℚ → Option ℚ)
    (hf : ∀ a b, (∃ q, a = some q) → (∃ q, b = some q) → ∃ q, f a b = some q) :
    ∀ (u v : List (Option ℚ)),
      (∀ x ∈ u, ∃ q, x = some q) → (∀ x ∈ v, ∃ q, x = some q) →
      ∀ x ∈ List.zipWith f u v, ∃ q, x = some q := by
  intro u
  induction u with
  | nil => intro v _ _ x hx; simp at hx
  | cons a as ih =>
      intro v hu hv x hx
      cases v with
      | nil => simp at hx
      | cons b bs =>
          rw [List.zipWith_cons_cons] at hx
          rcases List.mem_cons.mp hx with hx | hx
          · subst hx
            exact hf a b (hu a (List.mem_cons_self _ _)) (hv b (List.mem_cons_self _ _))
          · exact ih bs (fun y hy => hu y (List.mem_cons_of_mem _ hy))
              (fun y hy => hv y (List.mem_cons_of_mem _ hy)) x hx

/-- Helper: the change vector has the length of the shorter input vector. -/
theorem calculate_change_length (allEq : Bool) (g dx : List ℚ) :
    (calculate_change allEq g dx).length = min g.length dx.length := by
  cases allEq <;> simp [calculate_change]

/-- Helper: the change vector is finite (NaN-free) when `all_params_equal` is
set or the gradient vector is not identically zero; the NaN of `0.0/0.0`
arises exactly when the normalizing maximum vanishes. -/
theorem calculate_change_finite (allEq : Bool) (g dx : List ℚ)
    (h : allEq = true ∨ listMaxAbs g ≠ 0) :
    ∀ x ∈ calculate_change allEq g dx, ∃ q, x = some q := by
  cases allEq with
  | true =>
      intro x hx
      refine mem_zipWith_some _ (fun a b => ⟨(if 0 < a then 1 else -1) * b, rfl⟩) g dx x ?_
      simpa [calculate_change] using hx
  | false =>
      rcases h with h | h
      · exact absurd h (by simp)
      · intro x hx
        refine mem_zipWith_some
          (fun a b => npMul (npDiv (some a) (some (listMaxAbs g))) (some b))
          (fun a b => ⟨a / listMaxAbs g * b, by simp [npDiv, npMul, if_neg h]⟩) g dx x ?_
        simpa [calculate_change] using hx

/-- Helper: `enforce_bounds` clamps a finite vector into the bounds whenever
every bound interval is ordered and the lengths agree; NaN components would
pass through unclamped, so finiteness is required. -/
theorem enforce_bounds_within :
    ∀ (bounds : List (ℚ × ℚ)) (p : List (Option ℚ)),
      (∀ b ∈ bounds, b.1 ≤ b.2) → p.length = bounds.length →
      (∀ x ∈ p, ∃ q, x = some q) →
      withinScaledBounds bounds (enforce_bounds bounds p) := by
  intro bounds
  induction bounds with
  | nil =>
      intro p _ _ _
      exact List.Forall₂.nil
  | cons b bs ih =>
      intro p hb hlen hfin
      cases p with
      | nil => simp at hlen
      | cons x xs =>
          obtain ⟨q, hq⟩ := hfin x (List.mem_cons_self _ _)
          subst hq
          rw [enforce_bounds, List.zipWith_cons_cons]
          refine List.Forall₂.cons ⟨max b.1 (min b.2 q), rfl, le_max_left _ _, ?_⟩
            (ih xs (fun c hc => hb c (List.mem_cons_of_mem _ hc)) (by simpa using hlen)
              (fun y hy => hfin y (List.mem_cons_of_mem _ hy)))
          exact max_le (hb b (List.mem_cons_self _ _)) (min_le_left _ _)

/-- Helper: a vector lying within the bounds is finite. -/
theorem within_finite {bounds : List (ℚ × ℚ)} {v : List (Option ℚ)}
    (h : withinScaledBounds bounds v) : ∀ x ∈ v, ∃ q, x = some q := by
  induction h with
  | nil => intro x hx; simp at hx
  | cons hrel _ ih =>
      intro x hx
      rcases List.mem_cons.mp hx with hx | hx
      · subst hx
        obtain ⟨q, hq, _⟩ := hrel
        exact ⟨q, hq⟩
      · exact ih x hx

/-- Helper: one optimizer iteration keeps the vector length equal to the
number of bounds, given well-sized gradient and noise vectors. -/
theorem gdIterStep_length (bounds : List (ℚ × ℚ)) (maxDx : List ℚ) (allEq : Bool)
    (gradients noiseVec : List ℚ) (params : List (Option ℚ))
    (hdx : maxDx.length = bounds.length)
    (hgrad : gradients.length = bounds.length)
    (hnoise : noiseVec.length = bounds.length)
    (hparams : params.length = bounds.length) :
    (List.zipWith npAdd
      (List.zipWith npAdd params (calculate_change allEq gradients maxDx))
      (noiseVec.map some)).length = bounds.length := by
  have hchange := calculate_change_length allEq gradients maxDx
  simp [hparams, hchange, hgrad, hdx, hnoise]

/-- Helper: along the whole optimization loop, every vector recorded in the
parameter history lies componentwise within the bounds, provided no iteration
normalizes an identically-zero gradient vector. -/
theorem fixedStepGDLoop_hist_within (bounds : List (ℚ × ℚ)) (maxDx : List ℚ)
    (allEq : Bool) (grad noise : Nat → List ℚ)
    (hb : ∀ b ∈ bounds, b.1 ≤ b.2)
    (hdx : maxDx.length = bounds.length)
    (hg : ∀ k, (grad k).length = bounds.length)
    (hn : ∀ k, (noise k).length = bounds.length)
    (hnz : ∀ k, allEq = true ∨ listMaxAbs (grad k) ≠ 0) :
    ∀ (fuel : Nat) (s : GDState),
      s.current_params.length = bounds.length →
      (∀ x ∈ s.current_params, ∃ q, x = some q) →
      (∀ v ∈ s.params_hist, withinScaledBounds bounds v) →
      ∀ v ∈ (fixedStepGDLoop bounds maxDx allEq grad noise fuel s).params_hist,
        withinScaledBounds bounds v := by
  intro fuel
  induction fuel with
  | zero =>
      intro s _ _ hhist
      exact hhist
  | succ fuel ih =>
      intro s hlen hfin hhist
      rw [fixedStepGDLoop]
      have haddfin : ∀ a b : Option ℚ, (∃ q, a = some q) → (∃ q, b = some q) →
          ∃ q, npAdd a b = some q := by
        rintro a b ⟨qa, rfl⟩ ⟨qb, rfl⟩
        exact ⟨qa + qb, rfl⟩
      have hp2fin : ∀ x ∈ List.zipWith npAdd
          (List.zipWith npAdd s.current_params
            (calculate_change allEq (grad s.iteration) maxDx))
          ((noise s.iteration).map some), ∃ q, x = some q := by
        refine zipWithOpt_finite npAdd haddfin _ _ ?_ ?_
        · exact zipWithOpt_finite npAdd haddfin _ _ hfin
            (calculate_change_finite allEq (grad s.iteration) maxDx (hnz s.iteration))
        · intro x hx
          obtain ⟨q, _, rfl⟩ := List.mem_map.mp hx
          exact ⟨q, rfl⟩
      have hp2len := gdIterStep_length bounds maxDx allEq (grad s.iteration)
        (noise s.iteration) s.current_params hdx (hg s.iteration) (hn s.iteration) hlen
      have hwithin : withinScaledBounds bounds
          (gdIterStep bounds maxDx allEq (grad s.iteration) (noise s.iteration)
            s.current_params) :=
        enforce_bounds_within bounds _ hb hp2len hp2fin
      refine ih _ ?_ ?_ ?_
      · simp [gdIterStep, enforce_bounds, hp2len]
      · exact within_finite hwithin
      · intro v hv
        rcases List.mem_append.mp hv with hv | hv
        · exact hhist v hv
        · rw [List.mem_singleton] at hv
          subst hv
          exact hwithin

/-- Helper: scaling ordered bound intervals by positive factors keeps them
ordered. -/
theorem scaleBounds_ordered :
    ∀ (scaling : List ℚ) (boundsRaw : List (ℚ × ℚ)),
      (∀ b ∈ boundsRaw, 0 < b.2 - b.1) → (∀ x ∈ scaling, 0 < x) →
      ∀ b ∈ scaleBounds scaling boundsRaw, b.1 ≤ b.2 := by
  intro scaling
  induction scaling with
  | nil => intro boundsRaw _ _ b hbmem; simp [scaleBounds] at hbmem
  | cons s ss ih =>
      intro boundsRaw hb hs b hbmem
      cases boundsRaw with
      | nil => simp [scaleBounds] at hbmem
      | cons c cs =>
          rw [scaleBounds, List.zipWith_cons_cons] at hbmem
          rcases List.mem_cons.mp hbmem with hbmem | hbmem
          · subst hbmem
            have hc : c.1 ≤ c.2 := by
              have := hb c (List.mem_cons_self _ _)
              linarith
            have hspos : (0 : ℚ) ≤ s := le_of_lt (hs s (List.mem_cons_self _ _))
            exact mul_le_mul_of_nonneg_left hc hspos
          · exact ih cs (fun x hx => hb x (List.mem_cons_of_mem _ hx))
              (fun x hx => hs x (List.mem_cons_of_mem _ hx)) b hbmem

/-- Claim C1, counterexample: the bounds invariant does not hold regardless of
the gradient values. In a run with bounds [(0, 1)], unit scaling and
`all_params_equal = False`, an identically-zero gradient vector makes the
normalization `gradients / np.max(np.abs(gradients))` produce `0.0/0.0 = NaN`;
`enforce_bounds` propagates the NaN, so the history records a NaN vector,
which lies within no bound interval. -/
theorem C1_zero_gradient_escapes_bounds :
    (FixedStepGradientDescent_run (scaleBounds [1] [(0, 1)]) [1] false
        (fun _ => [0]) (fun _ => [0]) 1 [1/2]).params_hist = [[none]]
    ∧ ¬ withinScaledBounds (scaleBounds [1] [(0, 1)]) [none] := by
  constructor
  · have hm : listMaxAbs [0] = 0 := by simp [listMaxAbs]
    rw [show scaleBounds [1] [(0, 1)] = [(1 * 0, 1 * 1)] from rfl]
    simp [FixedStepGradientDescent_run, fixedStepGDLoop, gdIterStep, calculate_change,
      enforce_bounds, npAdd, npMul, npDiv, npMin, npMax, hm]
  · intro h
    rw [withinScaledBounds, show scaleBounds [1] [(0, 1)] = [(1 * 0, 1 * 1)] from rfl] at h
    cases h with
    | cons hrel _ =>
        obtain ⟨q, hq, _⟩ := hrel
        exact Option.noConfusion hq

/-- Claim C1, amended: for every `FixedStepGradientDescent.run` invocation
whose bound intervals all have positive range (as `Optimizer.initialize`
enforces) and positive scaling factors, every vector recorded in the iteration
history after a bounds-enforcement step lies componentwise within the
scaling-factor-scaled `[min, max]` bounds, regardless of the noise vectors and
of the gradient vectors supplied at each iteration as long as no iteration
normalizes an identically-zero gradient vector (which would produce NaN
parameters that the clamp passes through), and for any starting point. -/
theorem C1_run_history_within_bounds (boundsRaw : List (ℚ × ℚ)) (scaling : List ℚ)
    (maxDx : List ℚ) (allEq : Bool) (grad noise : Nat → List ℚ)
    (startPoint : List ℚ) (maxIter : Nat)
    (hb : ∀ b ∈ boundsRaw, 0 < b.2 - b.1)
    (hs : ∀ x ∈ scaling, 0 < x)
    (_hlenS : scaling.length = boundsRaw.length)
    (hdx : maxDx.length = (scaleBounds scaling boundsRaw).length)
    (hstart : startPoint.length = (scaleBounds scaling boundsRaw).length)
    (hg : ∀ k, (grad k).length = (scaleBounds scaling boundsRaw).length)
    (hn : ∀ k, (noise k).length = (scaleBounds scaling boundsRaw).length)
    (hnz : ∀ k, allEq = true ∨ listMaxAbs (grad k) ≠ 0) :
    ∀ v ∈ (FixedStepGradientDescent_run (scaleBounds scaling boundsRaw) maxDx allEq
        grad noise maxIter startPoint).params_hist,
      withinScaledBounds (scaleBounds scaling boundsRaw) v := by
  refine fixedStepGDLoop_hist_within (scaleBounds scaling boundsRaw) maxDx allEq grad noise
    (scaleBounds_ordered scaling boundsRaw hb hs) hdx hg hn hnz maxIter
    ⟨startPoint.map some, [], 0⟩ ?_ ?_ ?_
  · simpa using hstart
  · intro x hx
    obtain ⟨q, _, rfl⟩ := List.mem_map.mp hx
    exact ⟨q, rfl⟩
  · intro v hv
    simp at hv

/-- Witness for C1: in a one-parameter run over the bound interval [0, 1] with
unit scaling, one iteration, unit gradient and zero noise, the vector recorded
by that iteration lies within the scaled bounds. -/
theorem C1_run_history_within_bounds_witness :
    withinScaledBounds (scaleBounds [1] [(0, 1)])
      ((FixedStepGradientDescent_run (scaleBounds [1] [(0, 1)]) [1] true
        (fun _ => [1]) (fun _ => [0]) 1 [0]).params_hist.headD []) :=
  C1_run_history_within_bounds [(0, 1)] [1] [1] true (fun _ => [1]) (fun _ => [0]) [0] 1
    (by norm_num) (by norm_num) rfl rfl rfl (fun _ => rfl) (fun _ => rfl)
    (fun _ => Or.inl rfl) _ (List.Mem.head _)

/-- Helper: popping a key that is not present leaves a Python dict unchanged. -/
theorem dictPop_eq_self {α β : Type} [DecidableEq α] {d : List (α × β)} {k : α}
    (h : k ∉ d.map Prod.fst) : dictPop d k = d := by
  rw [dictPop, List.filter_eq_self]
  intro p hp
  simp only [bne_iff_ne, ne_eq]
  intro he
  exact h (he ▸ List.mem_map_of_mem Prod.fst hp)

/-- Helper: popping a present key from a Python dict with pairwise distinct
keys shrinks it by exactly one entry. -/
theorem dictPop_length {α β : Type} [DecidableEq α] :
    ∀ {d : List (α × β)} {k : α}, (d.map Prod.fst).Nodup → k ∈ d.map Prod.fst →
      (dictPop d k).length + 1 = d.length := by
  intro d
  induction d with
  | nil => intro k _ hk; simp at hk
  | cons p rest ih =>
      intro k hnodup hk
      rw [List.map_cons, List.nodup_cons] at hnodup
      rw [List.map_cons, List.mem_cons] at hk
      by_cases he : p.1 = k
      · rw [dictPop, List.filter_cons, if_neg (by simp [he])]
        have hrest : dictPop rest k = rest := dictPop_eq_self (by rw [← he]; exact hnodup.1)
        rw [dictPop] at hrest
        rw [hrest]
        rfl
      · rcases hk with hk | hk
        · exact absurd hk.symm he
        · have hih := ih hnodup.2 hk
          rw [dictPop, List.filter_cons, if_pos (by simp [he])]
          rw [dictPop] at hih
          simp only [List.length_cons]
          omega

/-- Helper: as soon as the dict size differs from the size captured by the
iterator, the next iterator advance raises the `RuntimeError`. -/
theorem removeOversizedAux_guard (scale boundary : ℚ) (used fuel i : Nat)
    (d : List (List Char × ℚ)) (hfuel : fuel ≠ 0) (hlen : d.length ≠ used) :
    removeOversizedAux scale boundary used fuel i d = .runtimeError := by
  cases fuel with
  | zero => exact absurd rfl hfuel
  | succ fuel => rw [removeOversizedAux, if_pos hlen]

/-- Helper: when some entry at or past the current position is oversized, the
removal loop always ends in the `RuntimeError`. -/
theorem removeOversizedAux_error (scale boundary : ℚ) (used : Nat) :
    ∀ (fuel i : Nat) (d : List (List Char × ℚ)),
      d.length = used → (d.map Prod.fst).Nodup →
      (∃ j : Fin d.length, i ≤ j.1 ∧ boundary < (d.get j).2 * scale) →
      d.length - i + 1 ≤ fuel →
      removeOversizedAux scale boundary used fuel i d = .runtimeError := by
  intro fuel
  induction fuel with
  | zero => intro i d _ _ _ hf; omega
  | succ fuel ih =>
      intro i d hused hnodup hex hf
      obtain ⟨j, hij, hover⟩ := hex
      have hi : i < d.length := lt_of_le_of_lt hij j.2
      rw [removeOversizedAux, if_neg (by simp [hused]), dif_pos hi]
      dsimp only
      by_cases hcase : boundary < (d.get ⟨i, hi⟩).2 * scale
      · rw [if_pos hcase]
        have hk : (d.get ⟨i, hi⟩).1 ∈ d.map Prod.fst :=
          List.mem_map_of_mem Prod.fst (List.get_mem d i hi)
        have hlen' := dictPop_length hnodup hk
        exact removeOversizedAux_guard scale boundary used fuel (i + 1) _
          (by omega) (by omega)
      · rw [if_neg hcase]
        have hij' : i + 1 ≤ j.1 := by
          rcases Nat.lt_or_ge i j.1 with h | h
          · omega
          · exfalso
            apply hcase
            have hji : (⟨i, hi⟩ : Fin d.length) = j := Fin.ext (show i = j.1 by omega)
            rw [hji]
            exact hover
        exact ih (i + 1) d hused hnodup ⟨j, hij', hover⟩ (by omega)

/-- Claim C10: `WaveguideSimulation.loss_sweep_bend_radii` removes entries from
`radius_sweep_mapping` while iterating over `radius_sweep_mapping.items()`, so
for every mapping containing at least one entry whose radius times the scale
factor exceeds the simulation boundary size, the call raises `RuntimeError:
dictionary changed size during iteration` before any simulation is performed,
rather than silently skipping the oversized radii. -/
theorem C10_loss_sweep_dict_mutation (scale boundary : ℚ)
    (d : List (List Char × ℚ))
    (hnodup : (d.map Prod.fst).Nodup)
    (hex : ∃ p ∈ d, boundary < p.2 * scale) :
    loss_sweep_bend_radii scale boundary d =
      { simulationsRun := 0,
        raised := some "dictionary changed size during iteration" } := by
  obtain ⟨p, hp, hover⟩ := hex
  obtain ⟨j, hj⟩ := List.mem_iff_get.mp hp
  rw [loss_sweep_bend_radii,
    removeOversizedAux_error scale boundary d.length (d.length + 1) 0 d rfl hnodup
      ⟨j, Nat.zero_le _, by rw [hj]; exact hover⟩ (by omega)]

/-- Witness for C10: a single-entry mapping whose radius 5 exceeds the
boundary size 1 at scale factor 1 makes the sweep raise the `RuntimeError`
with no simulation run. -/
theorem C10_loss_sweep_dict_mutation_witness :
    loss_sweep_bend_radii 1 1 [("wg.gds".data, 5)] =
      { simulationsRun := 0,
        raised := some "dictionary changed size during iteration" } :=
  C10_loss_sweep_dict_mutation 1 1 [("wg.gds".data, 5)] (by simp)
    ⟨("wg.gds".data, 5), List.mem_singleton.mpr rfl, by norm_num⟩


/-- Helper: escaping distributes over the head character. -/
theorem escapeData_cons (c : Char) (cs : List Char) :
    escapeData (c :: cs) = escapeChar c ++ escapeData cs := by
  simp [escapeData]

/-- Helper: escaping never shortens character data. -/
theorem length_le_escapeData : ∀ s : List Char, s.length ≤ (escapeData s).length := by
  intro s
  induction s with
  | nil => simp [escapeData]
  | cons c cs ih =>
      rw [escapeData_cons, List.length_append, List.length_cons]
      have h1 : 1 ≤ (escapeChar c).length := by
        rw [escapeChar]
        by_cases h1 : c = '&'
        · simp [h1]
        · by_cases h2 : c = '<'
          · simp [h1, h2]
          · by_cases h3 : c = '\"'
            · simp [h1, h2, h3]
            · by_cases h4 : c = '>'
              · simp [h1, h2, h3, h4]
              · simp [h1, h2, h3, h4]
      omega

/-- Helper: a list is a prefix of itself followed by anything. -/
theorem isPrefixOf_append_self : ∀ (a b : List Char), a.isPrefixOf (a ++ b) = true := by
  intro a b
  induction a with
  | nil => simp [List.isPrefixOf]
  | cons x xs ih => simp [List.isPrefixOf, ih]

/-- Helper: the text parser inverts minidom escaping, consuming the whole
escaped run up to the following tag opener. -/
theorem parseText_escaped :
    ∀ (s rest : List Char) (fuel : Nat), s.length + 1 ≤ fuel →
      parseText fuel (escapeData s ++ '<' :: rest) = some (s, '<' :: rest) := by
  intro s
  induction s with
  | nil =>
      intro rest fuel hf
      cases fuel with
      | zero => omega
      | succ fuel =>
          rw [show escapeData [] ++ '<' :: rest = '<' :: rest from rfl]
          simp only [parseText]
          rw [if_pos True.intro]
  | cons c cs ih =>
      intro rest fuel hf
      cases fuel with
      | zero => simp at hf
      | succ fuel =>
          have hfc : cs.length + 1 ≤ fuel := by
            simp only [List.length_cons] at hf
            omega
          rw [escapeData_cons]
          by_cases h1 : c = '&'
          · subst h1
            rw [show (escapeChar '&' ++ escapeData cs) ++ '<' :: rest =
                  '&' :: 'a' :: 'm' :: 'p' :: ';' :: (escapeData cs ++ '<' :: rest) from rfl]
            show (match parseText fuel (escapeData cs ++ '<' :: rest) with
                  | none => none
                  | some (t, r2) => some (('&' : Char) :: t, r2)) = some ('&' :: cs, '<' :: rest)
            rw [ih rest fuel hfc]
          · by_cases h2 : c = '<'
            · subst h2
              rw [show (escapeChar '<' ++ escapeData cs) ++ '<' :: rest =
                    '&' :: 'l' :: 't' :: ';' :: (escapeData cs ++ '<' :: rest) from rfl]
              show (match parseText fuel (escapeData cs ++ '<' :: rest) with
                    | none => none
                    | some (t, r2) => some (('<' : Char) :: t, r2)) = some ('<' :: cs, '<' :: rest)
              rw [ih rest fuel hfc]
            · by_cases h3 : c = '\"'
              · subst h3
                rw [show (escapeChar '\"' ++ escapeData cs) ++ '<' :: rest =
                      '&' :: 'q' :: 'u' :: 'o' :: 't' :: ';' ::
                        (escapeData cs ++ '<' :: rest) from rfl]
                show (match parseText fuel (escapeData cs ++ '<' :: rest) with
                      | none => none
                      | some (t, r2) => some (('\"' : Char) :: t, r2)) =
                    some ('\"' :: cs, '<' :: rest)
                rw [ih rest fuel hfc]
              · by_cases h4 : c = '>'
                · subst h4
                  rw [show (escapeChar '>' ++ escapeData cs) ++ '<' :: rest =
                        '&' :: 'g' :: 't' :: ';' :: (escapeData cs ++ '<' :: rest) from rfl]
                  show (match parseText fuel (escapeData cs ++ '<' :: rest) with
                        | none => none
                        | some (t, r2) => some (('>' : Char) :: t, r2)) =
                      some ('>' :: cs, '<' :: rest)
                  rw [ih rest fuel hfc]
                · have hplain : escapeChar c = [c] := by
                    rw [escapeChar, if_neg h1, if_neg h2, if_neg h3, if_neg h4]
                  rw [hplain, show ([c] ++ escapeData cs) ++ '<' :: rest =
                        c :: (escapeData cs ++ '<' :: rest) from by simp]
                  simp only [parseText]
                  rw [if_neg h2, if_neg h1]
                  rw [ih rest fuel hfc]

/-- Helper: a node sequence ends at a closing tag, which stays unconsumed. -/
theorem parseNodes_closing (tail : List Char) (fuel : Nat) (hf : 1 ≤ fuel) :
    parseNodes fuel ('<' :: '/' :: tail) = some ([], '<' :: '/' :: tail) := by
  cases fuel with
  | zero => omega
  | succ fuel =>
      simp only [parseNodes]
      rw [if_pos True.intro]

/-- Helper: an escaped character either starts with the ampersand of an
entity reference or stands for itself and is neither `<` nor `&`. -/
theorem escapeChar_head (c : Char) :
    (∃ es, escapeChar c = '&' :: es) ∨ (escapeChar c = [c] ∧ c ≠ '<' ∧ c ≠ '&') := by
  by_cases h1 : c = '&'
  · exact Or.inl ⟨"amp;".data, by rw [h1]; rfl⟩
  · by_cases h2 : c = '<'
    · exact Or.inl ⟨"lt;".data, by rw [h2]; rfl⟩
    · by_cases h3 : c = '\"'
      · exact Or.inl ⟨"quot;".data, by rw [h3]; rfl⟩
      · by_cases h4 : c = '>'
        · exact Or.inl ⟨"gt;".data, by rw [h4]; rfl⟩
        · refine Or.inr ⟨?_, h2, h1⟩
          rw [escapeChar, if_neg h1, if_neg h2, if_neg h3, if_neg h4]

/-- Helper: a nonempty escaped run followed by a closing tag parses to one
character-data node. -/
theorem parseNodes_single_text (s tail : List Char) (fuel : Nat)
    (hs : s ≠ []) (hf : 2 ≤ fuel) :
    parseNodes fuel (escapeData s ++ '<' :: '/' :: tail) =
      some ([.text s], '<' :: '/' :: tail) := by
  obtain ⟨c, cs, rfl⟩ := List.exists_cons_of_ne_nil hs
  cases fuel with
  | zero => omega
  | succ fuel =>
      have htext := parseText_escaped (c :: cs) ('/' :: tail)
        ((escapeData (c :: cs) ++ '<' :: '/' :: tail).length + 1)
        (by
          have hle := length_le_escapeData (c :: cs)
          simp only [List.length_append, List.length_cons] at hle ⊢
          omega)
      have hclose : parseNodes fuel ('<' :: '/' :: tail) = some ([], '<' :: '/' :: tail) :=
        parseNodes_closing tail fuel (by omega)
      rcases escapeChar_head c with ⟨es, hee⟩ | ⟨hee, hlt, hamp⟩
      · rw [show escapeData (c :: cs) ++ '<' :: '/' :: tail =
              '&' :: (es ++ (escapeData cs ++ '<' :: '/' :: tail)) from by
            rw [escapeData_cons, hee]; simp]
        simp only [parseNodes]
        rw [show ('&' :: (es ++ (escapeData cs ++ '<' :: '/' :: tail))) =
              escapeData (c :: cs) ++ '<' :: '/' :: tail from by
            rw [escapeData_cons, hee]; simp]
        rw [htext]
        show (match parseNodes fuel ('<' :: '/' :: tail) with
              | none => none
              | some (ns, r2) => some (XmlNode.text (c :: cs) :: ns, r2)) =
            some ([.text (c :: cs)], '<' :: '/' :: tail)
        rw [hclose]
      · rw [show escapeData (c :: cs) ++ '<' :: '/' :: tail =
              c :: (escapeData cs ++ '<' :: '/' :: tail) from by
            rw [escapeData_cons, hee]; simp]
        simp only [parseNodes]
        rw [if_neg hlt]
        rw [show (c :: (escapeData cs ++ '<' :: '/' :: tail)) =
              escapeData (c :: cs) ++ '<' :: '/' :: tail from by
            rw [escapeData_cons, hee]; simp]
        rw [htext]
        show (match parseNodes fuel ('<' :: '/' :: tail) with
              | none => none
              | some (ns, r2) => some (XmlNode.text (c :: cs) :: ns, r2)) =
            some ([.text (c :: cs)], '<' :: '/' :: tail)
        rw [hclose]

/-- Helper: reading name characters after the tag opener recovers exactly the
tag name. -/
theorem takeWhile_tag : ∀ (tag : List Char) (c : Char) (rest : List Char),
    tag.all nameChar = true → nameChar c = false →
    (tag ++ c :: rest).takeWhile nameChar = tag := by
  intro tag
  induction tag with
  | nil =>
      intro c rest _ hc
      simp [List.takeWhile_cons, hc]
  | cons x xs ih =>
      intro c rest hall hc
      rw [List.all_cons, Bool.and_eq_true] at hall
      simp only [List.cons_append, List.takeWhile_cons, hall.1, if_true]
      rw [ih c rest hall.2 hc]

/-- Helper: the pretty form of a childless element parses back to it. -/
theorem parseElemBody_selfClosing (tag r : List Char) (fuel : Nat)
    (hv : validTag tag) (hf : 1 ≤ fuel) :
    parseElemBody fuel (tag ++ '/' :: '>' :: r) = some (.elem tag [], r) := by
  cases fuel with
  | zero => omega
  | succ fuel =>
      simp only [parseElemBody]
      rw [takeWhile_tag tag '/' ('>' :: r) hv.2 (by decide)]
      rw [if_neg hv.1, List.drop_left]
      rfl

/-- Helper: the pretty form of an element holding one nonempty text run
parses back to it. -/
theorem parseElemBody_singleText (tag s r : List Char) (fuel : Nat)
    (hv : validTag tag) (hs : s ≠ []) (hf : 3 ≤ fuel) :
    parseElemBody fuel (tag ++ '>' :: (escapeData s ++ '<' :: '/' :: (tag ++ '>' :: r))) =
      some (.elem tag [.text s], r) := by
  cases fuel with
  | zero => omega
  | succ fuel =>
      simp only [parseElemBody]
      rw [takeWhile_tag tag '>' _ hv.2 (by decide)]
      rw [if_neg hv.1, List.drop_left]
      show (match parseNodes fuel (escapeData s ++ '<' :: '/' :: (tag ++ '>' :: r)) with
            | none => none
            | some (children, r2) =>
                match r2 with
                | '<' :: '/' :: r3 =>
                    if (tag ++ ['>']).isPrefixOf r3 then
                      some (XmlNode.elem tag children, r3.drop (tag.length + 1))
                    else none
                | _ => none) = some (.elem tag [.text s], r)
      rw [parseNodes_single_text s _ fuel hs (by omega)]
      show (if (tag ++ ['>']).isPrefixOf (tag ++ '>' :: r) then
              some (XmlNode.elem tag [.text s], (tag ++ '>' :: r).drop (tag.length + 1))
            else none) = some (.elem tag [.text s], r)
      rw [show tag ++ '>' :: r = (tag ++ ['>']) ++ r from by simp]
      rw [if_pos (isPrefixOf_append_self _ _)]
      rw [show tag.length + 1 = (tag ++ ['>']).length from by simp]
      rw [List.drop_left]

/-- Helper: on single-element trees with no element children, re-parsing the
pretty-printed document recovers the tree. -/
theorem parseDoc_prettify_flat : ∀ (t : XmlNode), FlatXml t → parseDoc (prettify t) = some t := by
  intro t h
  cases t with
  | text d => exact (h : False).elim
  | elem tag children =>
      cases children with
      | nil =>
          have hv : validTag tag := h
          rw [prettify, parseDoc]
          have hpn : prettyNode [] (.elem tag []) = '<' :: (tag ++ '/' :: '>' :: ['\n']) := rfl
          rw [hpn, if_pos (isPrefixOf_append_self _ _), List.drop_left]
          show (match parseElemBody ((tag ++ '/' :: '>' :: ['\n']).length + 1)
                  (tag ++ '/' :: '>' :: ['\n']) with
                | some (root, r) => if r.all isSpaceChar then some root else none
                | none => none) = some (XmlNode.elem tag [])
          rw [parseElemBody_selfClosing tag ['\n'] _ hv (by omega)]
          show (if (['\n'] : List Char).all isSpaceChar then some (XmlNode.elem tag [])
                else none) = some (XmlNode.elem tag [])
          rw [if_pos (by decide)]
      | cons c1 ctail =>
          cases c1 with
          | elem tag2 ch2 => exact (h : False).elim
          | text s =>
              cases ctail with
              | cons c2 ctail2 => exact (h : False).elim
              | nil =>
                  have hv : validTag tag := h.1
                  have hs : s ≠ [] := h.2
                  rw [prettify, parseDoc]
                  have hpn : prettyNode [] (.elem tag [.text s]) =
                      '<' :: (tag ++ '>' ::
                        (escapeData s ++ '<' :: '/' :: (tag ++ '>' :: ['\n']))) := rfl
                  rw [hpn, if_pos (isPrefixOf_append_self _ _), List.drop_left]
                  show (match parseElemBody
                          ((tag ++ '>' :: (escapeData s ++ '<' :: '/' ::
                            (tag ++ '>' :: ['\n']))).length + 1)
                          (tag ++ '>' :: (escapeData s ++ '<' :: '/' ::
                            (tag ++ '>' :: ['\n']))) with
                        | some (root, r) => if r.all isSpaceChar then some root else none
                        | none => none) = some (XmlNode.elem tag [.text s])
                  rw [parseElemBody_singleText tag s ['\n'] _ hv hs
                    (by simp only [List.length_append, List.length_cons]; omega)]
                  show (if (['\n'] : List Char).all isSpaceChar then
                          some (XmlNode.elem tag [.text s])
                        else none) = some (XmlNode.elem tag [.text s])
                  rw [if_pos (by decide)]

/-- Claim C6, counterexample: the XML pretty-printer `prettify` is not
idempotent. For the tree `<a><b/></a>`, re-parsing the pretty-printed string
and pretty-printing again yields a different string: the indentation
whitespace inserted by the first pass is parsed back as character data and a
second pass indents it again. -/
theorem C6_prettify_not_idempotent :
    parseDoc (prettify (.elem "a".data [.elem "b".data []])) =
      some (.elem "a".data [.text "\n  ".data, .elem "b".data [], .text "\n".data])
    ∧ prettify (.elem "a".data [.text "\n  ".data, .elem "b".data [], .text "\n".data]) ≠
        prettify (.elem "a".data [.elem "b".data []]) :=
  ⟨rfl, by decide⟩

/-- Claim C6, amended: the pretty-printer `prettify` is idempotent on every
XML element tree without element children, that is a single element with a
valid name and either no children or one nonempty character-data child:
re-parsing its pretty-printed string and pretty-printing again yields a
byte-identical string. -/
theorem C6_prettify_idempotent_flat (t : XmlNode) (h : FlatXml t) :
    ∃ t2, parseDoc (prettify t) = some t2 ∧ prettify t2 = prettify t :=
  ⟨t, parseDoc_prettify_flat t h, rfl⟩

/-- Witness for C6: the concrete tree `<a>hi</a>` satisfies the amended
claim. -/
theorem C6_prettify_idempotent_flat_witness :
    FlatXml (.elem "a".data [.text "hi".data])
    ∧ ∃ t2, parseDoc (prettify (.elem "a".data [.text "hi".data])) = some t2
        ∧ prettify t2 = prettify (.elem "a".data [.text "hi".data]) :=
  ⟨⟨⟨by decide, by decide⟩, by decide⟩,
   C6_prettify_idempotent_flat (.elem "a".data [.text "hi".data])
     ⟨⟨by decide, by decide⟩, by decide⟩⟩

end PDK

